import Mathlib

/-!
# Verification of the multi-document excerpt composition engine (`multi_buffer2`)

A shallow embedding of `crates/multi_buffer2/src/multi_buffer2.rs`.

The engine (`MultiBuffer`) stitches anchor-addressed ranges ("excerpts") of
several text documents into one composed view.  Its state is a sorted sequence
of `Excerpt`s (the augmented tree is modelled as a list, the only behaviour the
engine uses being ordered cursor seeks) together with a map from `BufferId` to
the last-observed `BufferSnapshot`.

The collaborating crates (`text`/`language` anchors, `sum_tree`) are not part
of the analysed sources; their behaviour is modelled from the specification:

* An `Anchor` is a stable position; for a document that is not edited it
  resolves to a fixed offset, and anchors are ordered by resolved offset and
  then by bias (`left` before `right`).  `anchor_before o` / `anchor_after o`
  construct the two anchors at offset `o`.  Anchor comparison does not depend
  on the snapshot argument for unedited documents, so the model's comparators
  take no snapshot.
* Anchor ranges are ordered by start anchor and then by end anchor with the
  containing (wider) range first, so that the full range
  `min_anchor..max_anchor` used by the rename handler (§4.4 of the spec) is
  the least range of a document and seeking to it lands at the start of that
  document's excerpt group.
* A tree cursor consumes items in order; a forward seek with `Bias::Right`
  passes items whose key is `≤` the target, with `Bias::Left` items whose key
  is `<` the target, and a seek whose target lies behind the cursor consumes
  nothing (release-build behaviour of the tree's seek).
-/

set_option linter.unusedVariables false

namespace MultiBuffer2

/-- `language::Bias`, used both for anchors and for tree seeks. -/
inductive Bias where
  | left
  | right
deriving DecidableEq, Repr

/-- Numeric rank of a bias; `left` compares before `right`. -/
def Bias.rank : Bias → Nat
  | .left => 0
  | .right => 1

/-- Modelled from the spec: an anchor is "a position in a document stable
across edits", resolved relative to the document.  For unedited documents the
model is a resolved offset plus a bias. -/
structure Anchor where
  offset : Nat
  bias : Bias
deriving DecidableEq, Repr

/-- `text::Anchor::cmp`: by resolved offset, then by bias. -/
def Anchor.cmp (a b : Anchor) : Ordering :=
  (compare a.offset b.offset).then (compare a.bias.rank b.bias.rank)

/-- `buffer.anchor_before(o)`. -/
def anchor_before (o : Nat) : Anchor := ⟨o, .left⟩

/-- `buffer.anchor_after(o)`. -/
def anchor_after (o : Nat) : Anchor := ⟨o, .right⟩

/-- `Anchor::to_offset(&snapshot)`: resolution of an anchor to an offset
(the snapshot is immaterial for unedited documents). -/
def Anchor.to_offset (a : Anchor) : Nat := a.offset

/-- `Range<language::Anchor>`.  (`stop` stands for the Rust field `end`,
which is a reserved word in Lean.) -/
structure ARange where
  start : Anchor
  stop : Anchor
deriving DecidableEq, Repr

/-- Modelled from the spec: range order is by start anchor, then by end
anchor with the containing (wider) range first (`AnchorRangeExt::cmp`), so
that `min_anchor..max_anchor` is the least range of a document. -/
def ARange.cmp (a b : ARange) : Ordering :=
  (Anchor.cmp a.start b.start).then (Anchor.cmp b.stop a.stop)

/-- `range.to_offset(&snapshot).is_empty()`: a resolved offset range
`start..stop` is empty iff `stop ≤ start`. -/
def ARange.offset_is_empty (r : ARange) : Bool :=
  r.stop.to_offset ≤ r.start.to_offset

/-- `BufferId { remote_id, replica_id }`. -/
structure BufferId where
  remote_id : Nat
  replica_id : Nat
deriving DecidableEq, Repr

/-- Derived ordering of `BufferId` (remote id, then replica id). -/
def BufferId.cmp (a b : BufferId) : Ordering :=
  (compare a.remote_id b.remote_id).then (compare a.replica_id b.replica_id)

/-- File paths only ever get compared; the model identifies a path with its
rank in path order. -/
abbrev Path := Nat

/-- Ordering of `Option<Arc<Path>>`: `None` before `Some`, paths by rank. -/
def optPathCmp : Option Path → Option Path → Ordering
  | none, none => .eq
  | none, some _ => .lt
  | some _, none => .gt
  | some a, some b => compare a b

/-- A document snapshot: file path, content, and the non-text update
counter.  A live buffer is modelled by the same data (snapshots are copies). -/
structure BufferSnapshot where
  path : Option Path
  content : List Char
  non_text_state_update_count : Nat
deriving DecidableEq, Repr

/-- The external world: what `buffer_handle.read(cx)` currently yields for
each buffer id. -/
abbrev World := BufferId → BufferSnapshot

/-- Modelled from the spec: the least anchor of a document. -/
def BufferSnapshot.min_anchor (s : BufferSnapshot) : Anchor := ⟨0, .left⟩

/-- Modelled from the spec: the greatest anchor of a document. -/
def BufferSnapshot.max_anchor (s : BufferSnapshot) : Anchor :=
  ⟨s.content.length, .right⟩

/-- `snapshot.text_for_range(range)`: the content between the resolved
offsets. -/
def BufferSnapshot.text_for_range (s : BufferSnapshot) (r : ARange) : List Char :=
  (s.content.take r.stop.to_offset).drop r.start.to_offset

/-- `ExcerptKey { path, buffer_id, range }`. -/
structure ExcerptKey where
  path : Option Path
  buffer_id : BufferId
  range : ARange
deriving DecidableEq, Repr

/-- `ExcerptKey::cmp`: by path, then buffer id, then range. -/
def ExcerptKey.cmp (a b : ExcerptKey) : Ordering :=
  (optPathCmp a.path b.path).then
    ((BufferId.cmp a.buffer_id b.buffer_id).then (ARange.cmp a.range b.range))

/-- `SeekTarget::cmp` of an `ExcerptKey` against the cursor's
`Option<ExcerptKey>` dimension: `None` compares less than every key. -/
def seek_target_cmp (k : ExcerptKey) : Option ExcerptKey → Ordering
  | some l => ExcerptKey.cmp k l
  | none => .gt

/-- `Excerpt { key, touches_previous, empty }`. -/
structure Excerpt where
  key : ExcerptKey
  touches_previous : Bool
  empty : Bool
deriving DecidableEq, Repr

/-- `Excerpt::show_header`. -/
def Excerpt.show_header (e : Excerpt) : Bool :=
  !e.touches_previous && !e.empty

/-- The snapshot map `TreeMap<BufferId, BufferSnapshot>`: an association list
kept sorted by buffer id (`TreeMap` iterates in ascending key order). -/
abbrev SnapMap := List (BufferId × BufferSnapshot)

/-- Lookup in the snapshot map. -/
def snapLookup (m : SnapMap) (k : BufferId) : Option BufferSnapshot :=
  match m with
  | [] => none
  | (k', v) :: rest => if k' = k then some v else snapLookup rest k

/-- Insert (or replace) in the snapshot map, keeping ascending key order. -/
def snapInsert (m : SnapMap) (k : BufferId) (v : BufferSnapshot) : SnapMap :=
  match m with
  | [] => [(k, v)]
  | (k', v') :: rest =>
    match BufferId.cmp k k' with
    | .lt => (k, v) :: (k', v') :: rest
    | .eq => (k, v) :: rest
    | .gt => (k', v') :: snapInsert rest k v

/-- Fallback snapshot used to totalise the source's `unwrap`s on snapshot-map
lookups (claim C9 shows the fallback is never taken on reachable states). -/
def missingSnapshot : BufferSnapshot := ⟨none, [], 0⟩

/-- `MultiBufferSnapshot { excerpts, buffer_snapshots }`; the excerpt tree is
modelled as the list of its items in order. -/
structure MultiBufferSnapshot where
  excerpts : List Excerpt
  buffer_snapshots : SnapMap
deriving DecidableEq, Repr

/-- `MultiBuffer { snapshot, buffers }`; the handle map is modelled by the
set of registered buffer ids (handle contents live in the `World`). -/
structure MultiBuffer where
  snapshot : MultiBufferSnapshot
  buffers : List BufferId
deriving DecidableEq, Repr

/-- `MultiBuffer::new()`. -/
def MultiBuffer.new : MultiBuffer := ⟨⟨[], []⟩, []⟩

/-- Modelled from the spec: a cursor walk of the ordered excerpt tree.
`seek_consume target bias items` splits `items` into the part a
`slice`/`seek_forward` to `target` passes over and the rest: with
`Bias::Right` an item is passed iff the target compares `≥` its key, with
`Bias::Left` iff the target compares `>` its key.  A target behind the cursor
consumes nothing. -/
def seek_consume (target : ExcerptKey) (bias : Bias) :
    List Excerpt → List Excerpt × List Excerpt
  | [] => ([], [])
  | e :: rest =>
    match ExcerptKey.cmp target e.key, bias with
    | .gt, _ | .eq, .right =>
      let s := seek_consume target bias rest
      (e :: s.1, s.2)
    | _, _ => ([], e :: rest)

/-- The last element of `l`, or `p` if `l` is empty; used to track the
cursor's `prev_item()` while items are being consumed. -/
def lastOr (l : List Excerpt) (p : Option Excerpt) : Option Excerpt :=
  match l.getLast? with
  | some e => some e
  | none => p

/-- `push_new_excerpt`: push a new key onto the tree being rebuilt, merging
with the last entry when the same document's ranges overlap or touch at
anchor level, otherwise recording offset-level adjacency in
`touches_previous`. -/
def push_new_excerpt (excerpts : List Excerpt) (new_key : ExcerptKey)
    (snapshots : SnapMap) : List Excerpt :=
  let snapshot := (snapLookup snapshots new_key.buffer_id).getD missingSnapshot
  match excerpts.getLast? with
  | some last_excerpt =>
    if last_excerpt.key.buffer_id = new_key.buffer_id then
      match Anchor.cmp last_excerpt.key.range.stop new_key.range.start with
      | .gt | .eq =>
        -- merged with previous
        match Anchor.cmp new_key.range.stop last_excerpt.key.range.stop with
        | .gt =>
          let merged_range : ARange := ⟨last_excerpt.key.range.start, new_key.range.stop⟩
          excerpts.dropLast ++
            [{ last_excerpt with
                key := { last_excerpt.key with range := merged_range },
                empty := merged_range.offset_is_empty }]
        | _ => excerpts
      | .lt =>
        let touches :=
          last_excerpt.key.range.stop.to_offset = new_key.range.start.to_offset
        excerpts ++ [{ key := new_key, touches_previous := touches,
                       empty := new_key.range.offset_is_empty }]
    else
      excerpts ++ [{ key := new_key, touches_previous := false,
                     empty := new_key.range.offset_is_empty }]
  | none =>
    excerpts ++ [{ key := new_key, touches_previous := false,
                   empty := new_key.range.offset_is_empty }]

/-- The cursor loop of `insert_excerpts` (lines 112–183): for each new key,
slice the unaffected prefix, push the new excerpt, skip the old excerpts it
subsumes (re-pushing the last of them so a partially covered old excerpt
extends the merged one), and stitch `touches_previous` on an old excerpt
starting exactly at the new excerpt's end offset. -/
def insert_excerpts_loop (snaps : SnapMap) :
    List ExcerptKey → List Excerpt → List Excerpt → Option Excerpt → List Excerpt
  | [], new_tree, old_rest, _ => new_tree ++ old_rest
  | k :: ks, new_tree, old_rest, prev =>
    let start_dim : Option ExcerptKey := prev.map (·.key)
    let step1 :=
      if seek_target_cmp k start_dim = .gt then seek_consume k .right old_rest
      else ([], old_rest)
    let new_tree1 := new_tree ++ step1.1
    let prev1 := lastOr step1.1 prev
    let new_tree2 := push_new_excerpt new_tree1 k snaps
    let end_target : ExcerptKey :=
      ⟨k.path, k.buffer_id, ⟨k.range.stop, k.range.stop⟩⟩
    let step3 := seek_consume end_target .right step1.2
    let prev2 := lastOr step3.1 prev1
    let new_tree3 :=
      match prev2 with
      | some prev_excerpt =>
        if prev_excerpt.key.buffer_id = k.buffer_id then
          push_new_excerpt new_tree2 prev_excerpt.key snaps
        else new_tree2
      | none => new_tree2
    match step3.2 with
    | [] => insert_excerpts_loop snaps ks new_tree3 [] prev2
    | next_old :: rest =>
      if next_old.key.buffer_id = k.buffer_id ∧
          k.range.stop.to_offset = next_old.key.range.start.to_offset then
        insert_excerpts_loop snaps ks
          (new_tree3 ++ [{ key := next_old.key, touches_previous := true,
                           empty := next_old.empty }])
          rest (some next_old)
      else
        insert_excerpts_loop snaps ks new_tree3 (next_old :: rest) prev2

/-- The `filter_map` phase of `insert_excerpts` (lines 49–79): drop ranges
whose end does not compare strictly greater than their start, register the
handle of each retained range's buffer and seed its snapshot entry on first
reference, and key each retained range by (current path, buffer id, range). -/
def register_new_excerpts (world : World) :
    List (BufferId × ARange) → MultiBuffer → MultiBuffer × List ExcerptKey
  | [], m => (m, [])
  | (buffer_id, range) :: rest, m =>
    let buffer := world buffer_id
    if Anchor.cmp range.stop range.start = .gt then
      let m' :=
        if m.buffers.contains buffer_id then m
        else
          { m with
            buffers := buffer_id :: m.buffers,
            snapshot := { m.snapshot with
              buffer_snapshots :=
                snapInsert m.snapshot.buffer_snapshots buffer_id buffer } }
      let s := register_new_excerpts world rest m'
      (s.1, ⟨buffer.path, buffer_id, range⟩ :: s.2)
    else
      register_new_excerpts world rest m

/-- One step of the batch sort (`sort_unstable_by` on `ExcerptKey::cmp`);
entries with equal keys are identical, so any comparison sort is faithful. -/
def sort_insert (k : ExcerptKey) : List ExcerptKey → List ExcerptKey
  | [] => [k]
  | x :: xs =>
    match ExcerptKey.cmp k x with
    | .lt => k :: x :: xs
    | _ => x :: sort_insert k xs

/-- The batch sort of `insert_excerpts` (line 80). -/
def sort_new_excerpts (l : List ExcerptKey) : List ExcerptKey :=
  l.foldr sort_insert []

/-- The `dedup_by` phase of `insert_excerpts` (lines 81–103): `b` is the
earlier retained entry, `a` the later candidate; same-document entries whose
ranges overlap or touch at anchor level are merged into `b` (minimum start,
maximum end). -/
def dedup_by_merge_aux (b : ExcerptKey) : List ExcerptKey → List ExcerptKey
  | [] => [b]
  | a :: rest =>
    if a.buffer_id = b.buffer_id ∧
        (Anchor.cmp a.range.stop b.range.start).isGE = true ∧
        (Anchor.cmp a.range.start b.range.stop).isLE = true then
      let b1 :=
        if Anchor.cmp a.range.start b.range.start = .lt then
          { b with range := { b.range with start := a.range.start } }
        else b
      let b2 :=
        if Anchor.cmp a.range.stop b.range.stop = .gt then
          { b1 with range := { b1.range with stop := a.range.stop } }
        else b1
      dedup_by_merge_aux b2 rest
    else b :: dedup_by_merge_aux a rest

/-- `Vec::dedup_by` with the merging closure of `insert_excerpts`. -/
def dedup_by_merge : List ExcerptKey → List ExcerptKey
  | [] => []
  | x :: xs => dedup_by_merge_aux x xs

/-- `language::Edit<usize>`: an (old range, new range) pair of offsets. -/
structure Edit where
  old_start : Nat
  old_stop : Nat
  new_start : Nat
  new_stop : Nat
deriving DecidableEq, Repr

/-- Modelled from the spec: `edits_since(version)` yields the edit set
between two snapshots; it is empty exactly when the contents coincide. -/
def edits_since (old_snapshot new_snapshot : BufferSnapshot) : List Edit :=
  if old_snapshot.content = new_snapshot.content then []
  else [⟨0, old_snapshot.content.length, 0, new_snapshot.content.length⟩]

/-- The scan of `sync` (lines 192–219) over the cached snapshots in
ascending buffer-id order: collect rename records and edits, and replace the
cached snapshot of every changed buffer.  Returns
(renames, edits, updated snapshot map). -/
def sync_collect (world : World) :
    SnapMap →
    List (BufferId × Option Path × Option Path) ×
      List (Option Path × BufferId × Edit) × SnapMap
  | [] => ([], [], [])
  | (buffer_id, old_snapshot) :: rest =>
    let new_snapshot := world buffer_id
    let edits := edits_since old_snapshot new_snapshot
    let renamed := new_snapshot.path ≠ old_snapshot.path
    let changed :=
      new_snapshot.non_text_state_update_count ≠
          old_snapshot.non_text_state_update_count ∨
        renamed ∨ edits ≠ []
    let s := sync_collect world rest
    ((if renamed then [(buffer_id, old_snapshot.path, new_snapshot.path)] else [])
        ++ s.1,
      edits.map (fun e => (new_snapshot.path, buffer_id, e)) ++ s.2.1,
      (buffer_id, if changed then new_snapshot else old_snapshot) :: s.2.2)

/-- `collect_run`: the `while let` loop of `apply_renames` (lines 250–268)
that pulls the run of excerpts of the renamed buffer off the cursor,
re-keying each with the new path and preserving its flags. -/
def collect_run (buffer_id : BufferId) (new_path : Option Path) :
    List Excerpt → List Excerpt × List Excerpt
  | [] => ([], [])
  | e :: rest =>
    if e.key.buffer_id = buffer_id then
      let s := collect_run buffer_id new_path rest
      ({ key := { path := new_path, buffer_id := buffer_id, range := e.key.range },
         touches_previous := e.touches_previous, empty := e.empty } :: s.1,
       s.2)
    else ([], e :: rest)

/-- Ordering of the `BTreeMap<(Option<Arc<Path>>, BufferId), _>` keys used to
hold the renamed excerpts. -/
def renamedKeyCmp (a b : Option Path × BufferId) : Ordering :=
  (optPathCmp a.1 b.1).then (BufferId.cmp a.2 b.2)

/-- Append a run of renamed excerpts under its `(new_path, buffer_id)` key
(`renamed_excerpts.entry(..).or_insert(Vec::new()).push(..)`), keeping the
map's ascending key order. -/
def renamedInsert (m : List ((Option Path × BufferId) × List Excerpt))
    (k : Option Path × BufferId) (v : List Excerpt) :
    List ((Option Path × BufferId) × List Excerpt) :=
  match m with
  | [] => [(k, v)]
  | (k', v') :: rest =>
    match renamedKeyCmp k k' with
    | .lt => (k, v) :: (k', v') :: rest
    | .eq => (k', v' ++ v) :: rest
    | .gt => (k', v') :: renamedInsert rest k v

/-- Phase 1 of `apply_renames` (lines 228–276): walk one forward cursor over
the renames in the order `sync` queued them (ascending buffer id), slicing up
to each rename's `(old_path, buffer_id, min_anchor..max_anchor)` key and
collecting the run of that buffer's excerpts.  Returns the tree with the
collected runs removed, and the runs keyed by `(new_path, buffer_id)`. -/
def apply_renames_remove (snaps : SnapMap) :
    List (BufferId × Option Path × Option Path) →
    List Excerpt → List Excerpt →
    List ((Option Path × BufferId) × List Excerpt) →
    List Excerpt × List ((Option Path × BufferId) × List Excerpt)
  | [], new_tree, old_rest, renamed => (new_tree ++ old_rest, renamed)
  | (buffer_id, old_path, new_path) :: renames, new_tree, old_rest, renamed =>
    let buffer_snapshot := (snapLookup snaps buffer_id).getD missingSnapshot
    let target : ExcerptKey :=
      ⟨old_path, buffer_id,
        ⟨buffer_snapshot.min_anchor, buffer_snapshot.max_anchor⟩⟩
    let s := seek_consume target .left old_rest
    let run := collect_run buffer_id new_path s.2
    apply_renames_remove snaps renames (new_tree ++ s.1) run.2
      (if run.1 = [] then renamed else renamedInsert renamed (new_path, buffer_id) run.1)

/-- Phase 2 of `apply_renames` (lines 278–305): re-insert each collected run
at the position its `(new_path, buffer_id, min_anchor..max_anchor)` key seeks
to, in ascending `(new_path, buffer_id)` order. -/
def apply_renames_reinsert (snaps : SnapMap) :
    List ((Option Path × BufferId) × List Excerpt) →
    List Excerpt → List Excerpt → List Excerpt
  | [], new_tree, old_rest => new_tree ++ old_rest
  | ((new_path, buffer_id), excerpts) :: entries, new_tree, old_rest =>
    let buffer_snapshot := (snapLookup snaps buffer_id).getD missingSnapshot
    let target : ExcerptKey :=
      ⟨new_path, buffer_id,
        ⟨buffer_snapshot.min_anchor, buffer_snapshot.max_anchor⟩⟩
    let s := seek_consume target .left old_rest
    apply_renames_reinsert snaps entries (new_tree ++ s.1 ++ excerpts) s.2

/-- `MultiBuffer::apply_renames`. -/
def MultiBuffer.apply_renames (m : MultiBuffer)
    (renames : List (BufferId × Option Path × Option Path)) : MultiBuffer :=
  let phase1 :=
    apply_renames_remove m.snapshot.buffer_snapshots renames [] m.snapshot.excerpts []
  let tree :=
    apply_renames_reinsert m.snapshot.buffer_snapshots phase1.2 [] phase1.1
  { m with snapshot := { m.snapshot with excerpts := tree } }

/-- `MultiBuffer::apply_edits` (lines 308–404): the entire body is commented
out in the source; the queued edits are discarded and the state returned
unchanged. -/
def MultiBuffer.apply_edits (m : MultiBuffer)
    (edits : List (Option Path × BufferId × Edit)) : MultiBuffer := m

/-- `MultiBuffer::sync` (lines 188–225). -/
def MultiBuffer.sync (m : MultiBuffer) (world : World) : MultiBuffer :=
  let scan := sync_collect world m.snapshot.buffer_snapshots
  let m1 :=
    { m with snapshot := { m.snapshot with buffer_snapshots := scan.2.2 } }
  (m1.apply_renames scan.1).apply_edits scan.2.1

/-- `MultiBuffer::insert_excerpts` (lines 29–186): synchronize, filter and
register the batch, sort it, coalesce it, and rebuild the tree with the
cursor loop. -/
def MultiBuffer.insert_excerpts (m : MultiBuffer) (world : World)
    (batch : List (BufferId × ARange)) : MultiBuffer :=
  let m0 := m.sync world
  let reg := register_new_excerpts world batch m0
  let keys := dedup_by_merge (sort_new_excerpts reg.2)
  let tree :=
    insert_excerpts_loop reg.1.snapshot.buffer_snapshots keys []
      reg.1.snapshot.excerpts none
  { reg.1 with snapshot := { reg.1.snapshot with excerpts := tree } }

/-- `MultiBuffer::snapshot` (the method), renamed to avoid clashing with the
field of the same name: synchronize, then hand out the snapshot. -/
def MultiBuffer.get_snapshot (m : MultiBuffer) (world : World) : MultiBufferSnapshot :=
  (m.sync world).snapshot

/-- `MultiBufferSnapshot::text`: concatenate the excerpts in tree order,
prefixing a separator to every excerpt that shows a header. -/
def MultiBufferSnapshot.text (s : MultiBufferSnapshot) : List Char :=
  s.excerpts.foldl
    (fun acc e =>
      let snapshot := (snapLookup s.buffer_snapshots e.key.buffer_id).getD missingSnapshot
      acc ++ (if e.show_header then ['\n'] else []) ++
        snapshot.text_for_range e.key.range)
    []

/-- The text length contributed by one excerpt to the tree's summary
(`sum_tree::Item::summary`, lines 565–584): a separator when the header is
shown plus the length of the excerpt's text. -/
def excerpt_summary_len (snaps : SnapMap) (e : Excerpt) : Nat :=
  let snapshot := (snapLookup snaps e.key.buffer_id).getD missingSnapshot
  (if e.show_header then 1 else 0) + (snapshot.text_for_range e.key.range).length

/-- `MultiBufferSnapshot::len`: the total summary length of the tree. -/
def MultiBufferSnapshot.len (s : MultiBufferSnapshot) : Nat :=
  s.excerpts.foldl (fun n e => n + excerpt_summary_len s.buffer_snapshots e) 0

/-- `MultiBuffer::check_invariants` (lines 411–444) as a boolean predicate:
for every adjacent pair of excerpts of the same document, the earlier one's
end anchor is strictly before the later one's start anchor. -/
def check_invariants_list : List Excerpt → Bool
  | [] => true
  | [_] => true
  | a :: b :: rest =>
    (decide (a.key.buffer_id = b.key.buffer_id →
        Anchor.cmp a.key.range.stop b.key.range.start = .lt)) &&
      check_invariants_list (b :: rest)

/-- Strict ascent of the stored keys along the tree. -/
def ascending_keys : List Excerpt → Bool
  | [] => true
  | [_] => true
  | a :: b :: rest =>
    (ExcerptKey.cmp a.key b.key == .lt) && ascending_keys (b :: rest)

/-- The ordering invariant claimed for all reachable states: strictly
ascending `ExcerptKey`s, and no overlap between adjacent excerpts of the
same document. -/
def ordered_invariant (s : MultiBufferSnapshot) : Bool :=
  ascending_keys s.excerpts && check_invariants_list s.excerpts

/-- The states reachable by sequences of `insert_excerpts`, `snapshot` and
synchronization calls (a `snapshot` call synchronizes and then reads); each
call observes the external world current at that moment. -/
inductive Reachable : MultiBuffer → Prop
  | init : Reachable MultiBuffer.new
  | insert (world : World) (batch : List (BufferId × ARange)) {m : MultiBuffer} :
      Reachable m → Reachable (m.insert_excerpts world batch)
  | sync (world : World) {m : MultiBuffer} :
      Reachable m → Reachable (m.sync world)

/-! ## Specification-side definitions

These follow the wording of the specification, for comparison with the
definitions above (which follow the source). -/

/-- The specification's reading of `text`: "linear reconstruction of the
composed text, inserting a separator before every excerpt whose
`touches_previous` is false and which is non-empty". -/
def text_according_to_spec (s : MultiBufferSnapshot) : List Char :=
  (s.excerpts.map (fun e =>
    (if e.touches_previous = false ∧ e.empty = false then ['\n'] else []) ++
      ((snapLookup s.buffer_snapshots e.key.buffer_id).getD missingSnapshot).text_for_range
        e.key.range)).flatten

/-- The smaller of two anchors "per the document's anchor order". -/
def anchor_min (a b : Anchor) : Anchor :=
  match Anchor.cmp a b with
  | .gt => b
  | _ => a

/-- The larger of two anchors "per the document's anchor order". -/
def anchor_max (a b : Anchor) : Anchor :=
  match Anchor.cmp a b with
  | .lt => b
  | _ => a

/-- The union of two ranges: "the minimum of the two starts and the maximum
of the two ends per the document's anchor order". -/
def range_union (a b : ARange) : ARange :=
  ⟨anchor_min a.start b.start, anchor_max a.stop b.stop⟩

/-- Two ranges of one document "overlap or touch" at anchor level. -/
def touches_or_overlaps (a b : ARange) : Prop :=
  (Anchor.cmp a.start b.stop).isLE = true ∧ (Anchor.cmp b.start a.stop).isLE = true

/-- A range is valid (non-inverted, non-degenerate): its end anchor compares
strictly greater than its start anchor. -/
def valid_range (r : ARange) : Prop :=
  Anchor.cmp r.stop r.start = .gt

/-- Re-key an excerpt with a new path, as the rename handler does. -/
def rekey_with_path (p : Option Path) (e : Excerpt) : Excerpt :=
  { e with key := { e.key with path := p } }

instance : DecidablePred valid_range := fun r =>
  inferInstanceAs (Decidable (Anchor.cmp r.stop r.start = .gt))

instance (a b : ARange) : Decidable (touches_or_overlaps a b) :=
  inferInstanceAs (Decidable (_ ∧ _))

/-- Every excerpt's document id has an entry in the snapshot map. -/
def snapshot_covered (s : MultiBufferSnapshot) : Prop :=
  ∀ e ∈ s.excerpts, (snapLookup s.buffer_snapshots e.key.buffer_id).isSome = true

/-- Every registered handle's document id has an entry in the snapshot map. -/
def handles_covered (m : MultiBuffer) : Prop :=
  ∀ b ∈ m.buffers, (snapLookup m.snapshot.buffer_snapshots b).isSome = true

/-- The excerpts are in strictly ascending key order. -/
def sorted_excerpts (l : List Excerpt) : Prop :=
  l.Chain' (fun a b => ExcerptKey.cmp a.key b.key = .lt)

instance instDecSortedExcerpts : (l : List Excerpt) → Decidable (sorted_excerpts l)
  | [] => isTrue List.chain'_nil
  | [_] => isTrue (List.chain'_singleton _)
  | a :: b :: rest =>
    haveI := instDecSortedExcerpts (b :: rest)
    decidable_of_iff
      (ExcerptKey.cmp a.key b.key = Ordering.lt ∧ sorted_excerpts (b :: rest))
      (@List.chain'_cons Excerpt
        (fun x y => ExcerptKey.cmp x.key y.key = Ordering.lt) a b rest).symm

/-- Whether a forward seek to `t` with the given bias passes over an item
with key `e.key` (the per-item reading of the cursor seek). -/
def seek_passes (t : ExcerptKey) (bias : Bias) (e : Excerpt) : Bool :=
  match ExcerptKey.cmp t e.key, bias with
  | .gt, _ => true
  | .eq, .right => true
  | _, _ => false

/-- The document-level part of the key order: path, then buffer id. -/
def pid_cmp (a b : ExcerptKey) : Ordering :=
  (optPathCmp a.path b.path).then (BufferId.cmp a.buffer_id b.buffer_id)

/-- Rank embedding of `Option Path` into `Nat` (`none` first). -/
def pathRank : Option Path → Nat
  | none => 0
  | some p => p + 1

/-- Every excerpt's stored path agrees with the cached snapshot of its
document. -/
def paths_consistent (s : MultiBufferSnapshot) : Prop :=
  ∀ e ∈ s.excerpts, ∃ bs,
    snapLookup s.buffer_snapshots e.key.buffer_id = some bs ∧ e.key.path = bs.path

/-- Every excerpt's anchors resolve within its document's cached content. -/
def ranges_within (s : MultiBufferSnapshot) : Prop :=
  ∀ e ∈ s.excerpts, ∀ bs,
    snapLookup s.buffer_snapshots e.key.buffer_id = some bs →
      e.key.range.stop.offset ≤ bs.content.length

/-! ## Concrete scenarios -/

/-- The buffer of the round-trip test (`tests::test_insert_excerpts`):
`Buffer::local("abcdefghijklmnopqrstuvwxyz")`, no file. -/
def rt_buffer : BufferId := ⟨1, 0⟩

/-- The world of the round-trip test: one unedited, unnamed buffer. -/
def rt_world : World :=
  fun _ => ⟨none, "abcdefghijklmnopqrstuvwxyz".toList, 0⟩

/-- Round-trip state after inserting excerpts for `[0,2)` and `[4,12)`. -/
def rt_state1 : MultiBuffer :=
  MultiBuffer.new.insert_excerpts rt_world
    [(rt_buffer, ⟨anchor_before 0, anchor_after 2⟩),
     (rt_buffer, ⟨anchor_before 4, anchor_after 12⟩)]

/-- Round-trip state after additionally inserting `[4,6)` and `[8,10)`. -/
def rt_state2 : MultiBuffer :=
  rt_state1.insert_excerpts rt_world
    [(rt_buffer, ⟨anchor_before 4, anchor_after 6⟩),
     (rt_buffer, ⟨anchor_before 8, anchor_after 10⟩)]

/-- Round-trip state after additionally inserting `[10,14)` and `[16,18)`. -/
def rt_state3 : MultiBuffer :=
  rt_state2.insert_excerpts rt_world
    [(rt_buffer, ⟨anchor_before 10, anchor_after 14⟩),
     (rt_buffer, ⟨anchor_before 16, anchor_after 18⟩)]

/-- Round-trip state after additionally inserting `[12,17)`. -/
def rt_state4 : MultiBuffer :=
  rt_state3.insert_excerpts rt_world
    [(rt_buffer, ⟨anchor_before 12, anchor_after 17⟩)]

/-- First buffer of the invariant-violation scenario (claim C1). -/
def ivb_b1 : BufferId := ⟨1, 0⟩

/-- Second buffer of the invariant-violation scenario. -/
def ivb_b2 : BufferId := ⟨2, 0⟩

/-- Initial world of the invariant-violation scenario: buffer 1 at path 20
with content `"01"`, buffer 2 at path 15 with content `"abcd"`. -/
def ivb_world0 : World := fun bid =>
  if bid = ivb_b1 then ⟨some 20, "01".toList, 0⟩ else ⟨some 15, "abcd".toList, 0⟩

/-- World after two simultaneous external renames: buffer 1 moves from path
20 to path 25, buffer 2 from path 15 to path 3.  Buffer 1 has the smaller
buffer id but the larger old path, so the rename handler's single forward
cursor processes buffer 1 first and can no longer reach buffer 2's group. -/
def ivb_world1 : World := fun bid =>
  if bid = ivb_b1 then ⟨some 25, "01".toList, 0⟩ else ⟨some 3, "abcd".toList, 0⟩

/-- Invariant-violation scenario: insert an excerpt of each buffer, pull in
the two renames with one synchronization, then insert a second excerpt of
buffer 2 overlapping its first one.  The first excerpt of buffer 2 is left
behind under its stale path, so the merge never sees it. -/
def ivb_state : MultiBuffer :=
  (((MultiBuffer.new.insert_excerpts ivb_world0
        [(ivb_b1, ⟨anchor_before 0, anchor_after 2⟩),
         (ivb_b2, ⟨anchor_before 0, anchor_after 4⟩)]).sync
      ivb_world1).insert_excerpts ivb_world1
    [(ivb_b2, ⟨anchor_before 1, anchor_after 3⟩)])

/-- Buffer of the edit-reconciliation scenario (claim C5). -/
def edit_buffer : BufferId := ⟨1, 0⟩

/-- World of the edit-reconciliation scenario before the edit: one buffer
with content `"abc"`. -/
def edit_world0 : World := fun _ => ⟨none, "abc".toList, 0⟩

/-- World after an external edit deleted the buffer's whole content. -/
def edit_world1 : World := fun _ => ⟨none, [], 0⟩

/-- State with one excerpt spanning the buffer's whole content. -/
def edit_state0 : MultiBuffer :=
  MultiBuffer.new.insert_excerpts edit_world0
    [(edit_buffer, ⟨anchor_before 0, anchor_after 3⟩)]

/-- State after synchronizing against the fully-deleted content. -/
def edit_state1 : MultiBuffer := edit_state0.sync edit_world1

/-- First buffer of the rename scenario (claim C6), content
`"The quick brown fox"` at path 10 (for `a.txt`). -/
def ren_b1 : BufferId := ⟨1, 0⟩

/-- Second buffer of the rename scenario, content
`"jumps over the lazy dog"` at path 11 (for `b.txt`). -/
def ren_b2 : BufferId := ⟨2, 0⟩

/-- World of the rename scenario before the rename. -/
def ren_world0 : World := fun bid =>
  if bid = ren_b1 then ⟨some 10, "The quick brown fox".toList, 0⟩
  else ⟨some 11, "jumps over the lazy dog".toList, 0⟩

/-- World after renaming the second buffer's path to 0 (for `0.txt`), which
sorts before the first buffer's path. -/
def ren_world1 : World := fun bid =>
  if bid = ren_b1 then ⟨some 10, "The quick brown fox".toList, 0⟩
  else ⟨some 0, "jumps over the lazy dog".toList, 0⟩

/-- Rename scenario state before the rename: two excerpts of each buffer
(the scenario of the source's `test_rename_buffers`). -/
def ren_state0 : MultiBuffer :=
  MultiBuffer.new.insert_excerpts ren_world0
    [(ren_b1, ⟨anchor_before 0, anchor_after 9⟩),
     (ren_b2, ⟨anchor_before 0, anchor_after 5⟩),
     (ren_b1, ⟨anchor_before 10, anchor_after 19⟩),
     (ren_b2, ⟨anchor_before 6, anchor_after 23⟩)]

/-- Rename scenario state after the rename is synchronized. -/
def ren_state1 : MultiBuffer := ren_state0.sync ren_world1

/-! ## Theorems -/

theorem ordering_then_eq_lt {a b : Ordering} :
    a.then b = .lt ↔ a = .lt ∨ (a = .eq ∧ b = .lt) := by
  cases a <;> cases b <;> simp [Ordering.then]

theorem ordering_then_eq_gt {a b : Ordering} :
    a.then b = .gt ↔ a = .gt ∨ (a = .eq ∧ b = .gt) := by
  cases a <;> cases b <;> simp [Ordering.then]

theorem ordering_then_eq_eq {a b : Ordering} :
    a.then b = .eq ↔ a = .eq ∧ b = .eq := by
  cases a <;> cases b <;> simp [Ordering.then]

theorem bias_rank_lt_iff {a b : Bias} : a.rank < b.rank ↔ a = .left ∧ b = .right := by
  cases a <;> cases b <;> simp [Bias.rank]

theorem bias_rank_eq_iff {a b : Bias} : a.rank = b.rank ↔ a = b := by
  cases a <;> cases b <;> simp [Bias.rank]

theorem anchor_cmp_eq_lt {a b : Anchor} :
    Anchor.cmp a b = .lt ↔
      a.offset < b.offset ∨ (a.offset = b.offset ∧ a.bias = .left ∧ b.bias = .right) := by
  simp [Anchor.cmp, ordering_then_eq_lt, Nat.compare_eq_lt, Nat.compare_eq_eq,
    bias_rank_lt_iff]

theorem anchor_cmp_eq_gt {a b : Anchor} :
    Anchor.cmp a b = .gt ↔
      b.offset < a.offset ∨ (a.offset = b.offset ∧ b.bias = .left ∧ a.bias = .right) := by
  simp only [Anchor.cmp, ordering_then_eq_gt, Nat.compare_eq_gt, Nat.compare_eq_eq,
    Nat.compare_eq_lt, bias_rank_lt_iff]

theorem anchor_cmp_eq_eq {a b : Anchor} : Anchor.cmp a b = .eq ↔ a = b := by
  simp only [Anchor.cmp, ordering_then_eq_eq, Nat.compare_eq_eq, bias_rank_eq_iff]
  constructor
  · rintro ⟨h1, h2⟩
    cases a; cases b; simp_all
  · rintro rfl; exact ⟨rfl, rfl⟩

theorem anchor_cmp_self (a : Anchor) : Anchor.cmp a a = .eq :=
  anchor_cmp_eq_eq.mpr rfl

theorem anchor_cmp_gt_iff_lt {a b : Anchor} :
    Anchor.cmp a b = .gt ↔ Anchor.cmp b a = .lt := by
  rw [anchor_cmp_eq_gt, anchor_cmp_eq_lt]
  constructor
  · rintro (h | ⟨h1, h2, h3⟩)
    · exact Or.inl h
    · exact Or.inr ⟨h1.symm, h2, h3⟩
  · rintro (h | ⟨h1, h2, h3⟩)
    · exact Or.inl h
    · exact Or.inr ⟨h1.symm, h2, h3⟩

theorem anchor_cmp_lt_trans {a b c : Anchor} :
    Anchor.cmp a b = .lt → Anchor.cmp b c = .lt → Anchor.cmp a c = .lt := by
  rw [anchor_cmp_eq_lt, anchor_cmp_eq_lt, anchor_cmp_eq_lt]
  rintro (h | ⟨h1, h2, h3⟩) (h' | ⟨h1', h2', h3'⟩)
  · exact Or.inl (h.trans h')
  · exact Or.inl (h1' ▸ h)
  · exact Or.inl (h1 ▸ h')
  · rw [h3] at h2'; cases h2'

theorem anchor_cmp_after_before_self (o : Nat) :
    Anchor.cmp (anchor_after o) (anchor_before o) = .gt := by
  rw [anchor_cmp_eq_gt]
  exact Or.inr ⟨rfl, rfl, rfl⟩

theorem take_drop_self {α : Type} (l : List α) (n : Nat) : (l.take n).drop n = [] := by
  apply List.drop_eq_nil_of_le
  rw [List.length_take]
  exact min_le_left _ _

theorem text_foldl_eq (snaps : SnapMap) (l : List Excerpt) (acc : List Char) :
    l.foldl
      (fun acc e =>
        acc ++ (if e.show_header then ['\n'] else []) ++
          ((snapLookup snaps e.key.buffer_id).getD missingSnapshot).text_for_range
            e.key.range)
      acc =
    acc ++ (l.map (fun e =>
      (if e.show_header then ['\n'] else []) ++
        ((snapLookup snaps e.key.buffer_id).getD missingSnapshot).text_for_range
          e.key.range)).flatten := by
  induction l generalizing acc with
  | nil => simp
  | cons e rest ih =>
    rw [List.foldl_cons, ih, List.map_cons, List.flatten_cons]
    simp [List.append_assoc]

/-- C8: `text()` is the concatenation, in tree order, of each excerpt's text
with a single separator before exactly those excerpts whose
`touches_previous` flag is false and which are non-empty. -/
theorem c8_text_reconstruction (s : MultiBufferSnapshot) :
    s.text = text_according_to_spec s := by
  have piece : ∀ e : Excerpt,
      (if e.show_header then ['\n'] else []) =
        (if e.touches_previous = false ∧ e.empty = false then ['\n'] else []) := by
    intro e
    cases h1 : e.touches_previous <;> cases h2 : e.empty <;>
      simp [Excerpt.show_header, h1, h2]
  rw [MultiBufferSnapshot.text, text_according_to_spec, text_foldl_eq]
  rw [List.nil_append]
  congr 1
  apply List.map_congr_left
  intro e _
  rw [piece e]


theorem sync_new (w : World) : MultiBuffer.new.sync w = MultiBuffer.new := rfl

theorem insert_single_empty (w : World) (b : BufferId) (r : ARange)
    (h : valid_range r) :
    MultiBuffer.new.insert_excerpts w [(b, r)] =
      ⟨⟨[⟨⟨(w b).path, b, r⟩, false, r.offset_is_empty⟩], [(b, w b)]⟩, [b]⟩ := by
  have h' : Anchor.cmp r.stop r.start = .gt := h
  simp only [MultiBuffer.insert_excerpts, sync_new, register_new_excerpts, h']
  rfl

theorem register_filter (w : World) (batch : List (BufferId × ARange))
    (m : MultiBuffer) :
    register_new_excerpts w (batch.filter fun p => decide (valid_range p.2)) m =
      register_new_excerpts w batch m := by
  induction batch generalizing m with
  | nil => rfl
  | cons p rest ih =>
    obtain ⟨bid, r⟩ := p
    by_cases h : valid_range r
    · have h' : Anchor.cmp r.stop r.start = .gt := h
      rw [List.filter_cons_of_pos (by simpa [valid_range] using h)]
      simp only [register_new_excerpts, h', ih]
    · have h' : Anchor.cmp r.stop r.start ≠ .gt := h
      rw [List.filter_cons_of_neg (by simpa [valid_range] using h)]
      simp only [register_new_excerpts, if_neg h', ih]

theorem register_all_invalid (w : World) (batch : List (BufferId × ARange))
    (h : ∀ p ∈ batch, ¬ valid_range p.2) (m : MultiBuffer) :
    register_new_excerpts w batch m = (m, []) := by
  induction batch generalizing m with
  | nil => rfl
  | cons p rest ih =>
    obtain ⟨bid, r⟩ := p
    have h' : Anchor.cmp r.stop r.start ≠ .gt := h (bid, r) (by simp)
    simp only [register_new_excerpts, if_neg h']
    exact ih (fun q hq => h q (by simp [hq])) m

/-- C4: `insert_excerpts` raises no error for any batch: ranges whose
end anchor does not compare strictly greater than their start anchor are
silently discarded (inserting a batch is the same as inserting its valid
part), and a batch of only invalid ranges creates no excerpt and registers no
handle — the call degenerates to the initial synchronization. -/
theorem c4_invalid_ranges_silently_dropped :
    (∀ (m : MultiBuffer) (w : World) (batch : List (BufferId × ARange)),
        m.insert_excerpts w batch =
          m.insert_excerpts w (batch.filter fun p => decide (valid_range p.2))) ∧
    (∀ (m : MultiBuffer) (w : World) (batch : List (BufferId × ARange)),
        (∀ p ∈ batch, ¬ valid_range p.2) →
          m.insert_excerpts w batch = m.sync w) := by
  constructor
  · intro m w batch
    simp only [MultiBuffer.insert_excerpts, register_filter]
  · intro m w batch h
    simp only [MultiBuffer.insert_excerpts, register_all_invalid w batch h]
    rfl

/-- Witness for C4 at a concrete inverted range. -/
theorem c4_invalid_ranges_silently_dropped_witness :
    MultiBuffer.new.insert_excerpts rt_world
        [(rt_buffer, ⟨anchor_after 2, anchor_before 1⟩)] =
      MultiBuffer.new.sync rt_world :=
  c4_invalid_ranges_silently_dropped.2 MultiBuffer.new rt_world
    [(rt_buffer, ⟨anchor_after 2, anchor_before 1⟩)] (by decide)

/-- C10: a range whose end anchor compares strictly greater than its start
anchor but whose anchors resolve to one offset (opposite biases at one
position) is not discarded: inserted into the empty engine it is stored as an
excerpt with its `empty` flag set, and it contributes no separator, no text
and no length to the composed view. -/
theorem c10_empty_range_excerpt (b : BufferId) (path : Option Path)
    (content : List Char) (cnt : Nat) (o : Nat) :
    valid_range ⟨anchor_before o, anchor_after o⟩ ∧
    (MultiBuffer.new.insert_excerpts (fun _ => ⟨path, content, cnt⟩)
        [(b, ⟨anchor_before o, anchor_after o⟩)]).snapshot.excerpts =
      [⟨⟨path, b, ⟨anchor_before o, anchor_after o⟩⟩, false, true⟩] ∧
    (MultiBuffer.new.insert_excerpts (fun _ => ⟨path, content, cnt⟩)
        [(b, ⟨anchor_before o, anchor_after o⟩)]).snapshot.text = [] ∧
    (MultiBuffer.new.insert_excerpts (fun _ => ⟨path, content, cnt⟩)
        [(b, ⟨anchor_before o, anchor_after o⟩)]).snapshot.len = 0 := by
  have hv : valid_range (⟨anchor_before o, anchor_after o⟩ : ARange) :=
    anchor_cmp_after_before_self o
  have hempty : (⟨anchor_before o, anchor_after o⟩ : ARange).offset_is_empty = true := by
    simp [ARange.offset_is_empty, Anchor.to_offset, anchor_before, anchor_after]
  rw [insert_single_empty _ b _ hv, hempty]
  refine ⟨hv, rfl, ?_, ?_⟩
  · simp [MultiBufferSnapshot.text, Excerpt.show_header, snapLookup,
      BufferSnapshot.text_for_range, Anchor.to_offset, anchor_before, anchor_after,
      take_drop_self]
  · simp [MultiBufferSnapshot.len, excerpt_summary_len, Excerpt.show_header,
      snapLookup, BufferSnapshot.text_for_range, Anchor.to_offset, anchor_before,
      anchor_after, take_drop_self]

theorem getLast?_mem {α : Type} {l : List α} {a : α} (h : l.getLast? = some a) :
    a ∈ l := by
  rcases List.mem_getLast?_eq_getLast (Option.mem_def.mpr h) with ⟨hne, rfl⟩
  exact List.getLast_mem hne

theorem seek_consume_append (target : ExcerptKey) (bias : Bias) (l : List Excerpt) :
    (seek_consume target bias l).1 ++ (seek_consume target bias l).2 = l := by
  induction l with
  | nil => rfl
  | cons e rest ih =>
    cases hc : ExcerptKey.cmp target e.key <;> cases bias <;>
      simp [seek_consume, hc, ih]

theorem mem_of_seek_consume_fst {target : ExcerptKey} {bias : Bias}
    {l : List Excerpt} {e : Excerpt} (h : e ∈ (seek_consume target bias l).1) :
    e ∈ l := by
  rw [← seek_consume_append target bias l]
  exact List.mem_append_left _ h

theorem mem_of_seek_consume_snd {target : ExcerptKey} {bias : Bias}
    {l : List Excerpt} {e : Excerpt} (h : e ∈ (seek_consume target bias l).2) :
    e ∈ l := by
  rw [← seek_consume_append target bias l]
  exact List.mem_append_right _ h

theorem push_new_excerpt_buffer_ids {Q : BufferId → Prop} {tree : List Excerpt}
    {k : ExcerptKey} {snaps : SnapMap}
    (htree : ∀ e ∈ tree, Q e.key.buffer_id) (hk : Q k.buffer_id) :
    ∀ e ∈ push_new_excerpt tree k snaps, Q e.key.buffer_id := by
  intro e he
  simp only [push_new_excerpt] at he
  split at he
  case _ last hlast =>
    split at he
    case isTrue hid =>
      split at he
      case _ hc =>
        split at he
        case _ hc2 =>
          simp only [List.mem_append, List.mem_singleton] at he
          rcases he with he | rfl
          · exact htree e (List.dropLast_subset tree he)
          · exact htree last (getLast?_mem hlast)
        case _ _ hc2 => exact htree e he
      case _ hc =>
        split at he
        case _ hc2 =>
          simp only [List.mem_append, List.mem_singleton] at he
          rcases he with he | rfl
          · exact htree e (List.dropLast_subset tree he)
          · exact htree last (getLast?_mem hlast)
        case _ _ hc2 => exact htree e he
      case _ hc =>
        simp only [List.mem_append, List.mem_singleton] at he
        rcases he with he | rfl
        · exact htree e he
        · exact hk
    case isFalse hid =>
      simp only [List.mem_append, List.mem_singleton] at he
      rcases he with he | rfl
      · exact htree e he
      · exact hk
  case _ hlast =>
    simp only [List.mem_append, List.mem_singleton] at he
    rcases he with he | rfl
    · exact htree e he
    · exact hk

theorem lastOr_buffer_ids {Q : BufferId → Prop} {l : List Excerpt}
    {p : Option Excerpt} (hl : ∀ e ∈ l, Q e.key.buffer_id)
    (hp : ∀ e, p = some e → Q e.key.buffer_id) :
    ∀ e, lastOr l p = some e → Q e.key.buffer_id := by
  intro e he
  rw [lastOr] at he
  rcases hlast : l.getLast? with _ | last <;> rw [hlast] at he
  · exact hp e he
  · cases he
    exact hl e (getLast?_mem hlast)

theorem insert_loop_buffer_ids {Q : BufferId → Prop} {snaps : SnapMap} :
    ∀ (keys : List ExcerptKey) (new_tree old_rest : List Excerpt)
      (prev : Option Excerpt),
    (∀ k ∈ keys, Q k.buffer_id) → (∀ e ∈ new_tree, Q e.key.buffer_id) →
    (∀ e ∈ old_rest, Q e.key.buffer_id) →
    (∀ e, prev = some e → Q e.key.buffer_id) →
    ∀ e ∈ insert_excerpts_loop snaps keys new_tree old_rest prev,
      Q e.key.buffer_id := by
  intro keys
  induction keys with
  | nil =>
    intro new_tree old_rest prev hkeys hnt hor hp e he
    rw [insert_excerpts_loop] at he
    rcases List.mem_append.mp he with h | h
    · exact hnt e h
    · exact hor e h
  | cons k ks ih =>
    intro new_tree old_rest prev hkeys hnt hor hp e he
    rw [insert_excerpts_loop] at he
    have hk : Q k.buffer_id := hkeys k (by simp)
    have hks : ∀ k' ∈ ks, Q k'.buffer_id := fun k' h => hkeys k' (by simp [h])
    set step1 :=
      if seek_target_cmp k (prev.map (·.key)) = .gt then seek_consume k .right old_rest
      else ([], old_rest) with hstep1
    have hstep1_fst : ∀ e ∈ step1.1, Q e.key.buffer_id := by
      rw [hstep1]
      split
      · intro e he; exact hor e (mem_of_seek_consume_fst he)
      · intro e he; cases he
    have hstep1_snd : ∀ e ∈ step1.2, Q e.key.buffer_id := by
      rw [hstep1]
      split
      · intro e he; exact hor e (mem_of_seek_consume_snd he)
      · intro e he; exact hor e he
    have hnt1 : ∀ e ∈ new_tree ++ step1.1, Q e.key.buffer_id := by
      intro e he
      rcases List.mem_append.mp he with h | h
      · exact hnt e h
      · exact hstep1_fst e h
    have hprev1 := lastOr_buffer_ids hstep1_fst hp
    have hnt2 := @push_new_excerpt_buffer_ids _ _ _ snaps hnt1 hk
    set step3 := seek_consume ⟨k.path, k.buffer_id, ⟨k.range.stop, k.range.stop⟩⟩
      .right step1.2 with hstep3
    have hstep3_fst : ∀ e ∈ step3.1, Q e.key.buffer_id := fun e he =>
      hstep1_snd e (mem_of_seek_consume_fst he)
    have hstep3_snd : ∀ e ∈ step3.2, Q e.key.buffer_id := fun e he =>
      hstep1_snd e (mem_of_seek_consume_snd he)
    have hprev2 := lastOr_buffer_ids hstep3_fst hprev1
    have hnt3 : ∀ e ∈
        (match lastOr step3.1 (lastOr step1.1 prev) with
          | some prev_excerpt =>
            if prev_excerpt.key.buffer_id = k.buffer_id then
              push_new_excerpt (push_new_excerpt (new_tree ++ step1.1) k snaps)
                prev_excerpt.key snaps
            else push_new_excerpt (new_tree ++ step1.1) k snaps
          | none => push_new_excerpt (new_tree ++ step1.1) k snaps),
        Q e.key.buffer_id := by
      rcases hpe : lastOr step3.1 (lastOr step1.1 prev) with _ | pe
      · exact hnt2
      · dsimp only
        split
        · exact push_new_excerpt_buffer_ids hnt2 (hprev2 pe hpe)
        · exact hnt2
    split at he
    case _ heq =>
      exact ih _ _ _ hks hnt3 (by intro x hx; cases hx) hprev2 e he
    case _ next_old rest heq =>
      have hnext : Q next_old.key.buffer_id := hstep3_snd next_old (by rw [heq]; simp)
      have hrest' : ∀ x ∈ rest, Q x.key.buffer_id := by
        intro x h
        exact hstep3_snd x (by rw [heq]; simp [h])
      split at he
      case isTrue hcond =>
        refine ih _ _ _ hks ?_ hrest' ?_ e he
        · intro e' he'
          rcases List.mem_append.mp he' with h | h
          · exact hnt3 e' h
          · rcases List.mem_singleton.mp h with rfl
            exact hnext
        · intro e' he'
          cases he'
          exact hnext
      case isFalse hcond =>
        refine ih _ _ _ hks hnt3 ?_ hprev2 e he
        intro e' he'
        rcases List.mem_cons.mp he' with rfl | h
        · exact hnext
        · exact hrest' e' h

theorem buffer_id_cmp_eq_iff {a b : BufferId} : BufferId.cmp a b = .eq ↔ a = b := by
  simp only [BufferId.cmp, ordering_then_eq_eq, Nat.compare_eq_eq]
  constructor
  · rintro ⟨h1, h2⟩
    cases a; cases b; simp_all
  · rintro rfl
    exact ⟨rfl, rfl⟩

theorem snapLookup_snapInsert_self (m : SnapMap) (k : BufferId) (v : BufferSnapshot) :
    snapLookup (snapInsert m k v) k = some v := by
  induction m with
  | nil => simp [snapInsert, snapLookup]
  | cons kv rest ih =>
    obtain ⟨k', v'⟩ := kv
    rw [snapInsert]
    cases hc : BufferId.cmp k k' with
    | lt => simp [snapLookup]
    | eq => simp [snapLookup]
    | gt =>
      have hne : k' ≠ k := by
        intro h
        rw [h, buffer_id_cmp_eq_iff.mpr rfl] at hc
        cases hc
      simp [snapLookup, hne, ih]

theorem snapLookup_snapInsert_mono (k : BufferId) (v : BufferSnapshot) :
    ∀ (m : SnapMap) (k' : BufferId), (snapLookup m k').isSome = true →
      (snapLookup (snapInsert m k v) k').isSome = true := by
  intro m
  induction m with
  | nil =>
    intro k' h
    simp [snapLookup] at h
  | cons kv rest ih =>
    intro k' h
    obtain ⟨k'', v''⟩ := kv
    by_cases hk : k = k'
    · subst hk
      rw [snapLookup_snapInsert_self]
      rfl
    · rw [snapInsert]
      cases hc : BufferId.cmp k k'' with
      | lt =>
        rw [snapLookup, if_neg hk]
        exact h
      | eq =>
        have hkk : k = k'' := buffer_id_cmp_eq_iff.mp hc
        subst hkk
        rw [snapLookup] at h ⊢
        rw [if_neg hk] at h ⊢
        exact h
      | gt =>
        rw [snapLookup] at h ⊢
        by_cases he : k'' = k'
        · rw [if_pos he] at h ⊢
          exact h
        · rw [if_neg he] at h ⊢
          exact ih k' h

theorem snapLookup_sync_collect (w : World) :
    ∀ (m : SnapMap) (k : BufferId),
      (snapLookup (sync_collect w m).2.2 k).isSome = (snapLookup m k).isSome := by
  intro m
  induction m with
  | nil => intro k; rfl
  | cons kv rest ih =>
    intro k
    obtain ⟨bid, oldS⟩ := kv
    by_cases h : bid = k <;> simp [sync_collect, snapLookup, h, ih]

theorem sync_collect_renames_covered (w : World) :
    ∀ (m : SnapMap), ∀ r ∈ (sync_collect w m).1,
      (snapLookup m r.1).isSome = true := by
  intro m
  induction m with
  | nil => intro r hr; cases hr
  | cons kv rest ih =>
    intro r hr
    obtain ⟨bid, oldS⟩ := kv
    rw [sync_collect] at hr
    simp only [List.mem_append] at hr
    rcases hr with hr | hr
    · have : r.1 = bid := by
        split at hr
        · rcases List.mem_singleton.mp hr with rfl
          rfl
        · cases hr
      rw [snapLookup, this, if_pos rfl]
      rfl
    · by_cases h : bid = r.1
      · rw [snapLookup, if_pos h]
        rfl
      · rw [snapLookup, if_neg h]
        exact ih r hr

theorem collect_run_fst_ids (bid : BufferId) (p : Option Path) :
    ∀ (l : List Excerpt), ∀ e ∈ (collect_run bid p l).1, e.key.buffer_id = bid := by
  intro l
  induction l with
  | nil => intro e he; cases he
  | cons x rest ih =>
    intro e he
    rw [collect_run] at he
    split at he
    · rcases List.mem_cons.mp he with rfl | he'
      · rfl
      · exact ih e he'
    · cases he

theorem collect_run_snd_sub (bid : BufferId) (p : Option Path) :
    ∀ (l : List Excerpt), ∀ e ∈ (collect_run bid p l).2, e ∈ l := by
  intro l
  induction l with
  | nil => intro e he; cases he
  | cons x rest ih =>
    intro e he
    rw [collect_run] at he
    split at he
    · exact List.mem_cons_of_mem x (ih e he)
    · exact he

theorem renamedInsert_covered {Q : BufferId → Prop}
    {v : List Excerpt} (hv : ∀ e ∈ v, Q e.key.buffer_id) :
    ∀ (m : List ((Option Path × BufferId) × List Excerpt)),
      (∀ entry ∈ m, ∀ e ∈ entry.2, Q e.key.buffer_id) →
      ∀ k, ∀ entry ∈ renamedInsert m k v, ∀ e ∈ entry.2, Q e.key.buffer_id := by
  intro m
  induction m with
  | nil =>
    intro _ k entry hentry
    rw [renamedInsert] at hentry
    rcases List.mem_singleton.mp hentry with rfl
    exact hv
  | cons kv rest ih =>
    intro hm k entry hentry
    rw [renamedInsert] at hentry
    split at hentry
    · rcases List.mem_cons.mp hentry with rfl | h
      · exact hv
      · exact hm entry h
    · rcases List.mem_cons.mp hentry with rfl | h
      · intro e he
        rcases List.mem_append.mp he with h' | h'
        · exact hm kv (by simp) e h'
        · exact hv e h'
      · exact hm entry (List.mem_cons_of_mem _ h)
    · rcases List.mem_cons.mp hentry with rfl | h
      · exact hm kv (by simp)
      · exact ih (fun en hen => hm en (List.mem_cons_of_mem _ hen)) k entry h

theorem apply_renames_remove_covered {Q : BufferId → Prop} {snaps : SnapMap} :
    ∀ (renames : List (BufferId × Option Path × Option Path))
      (new_tree old_rest : List Excerpt)
      (renamed : List ((Option Path × BufferId) × List Excerpt)),
    (∀ r ∈ renames, Q r.1) →
    (∀ e ∈ new_tree, Q e.key.buffer_id) →
    (∀ e ∈ old_rest, Q e.key.buffer_id) →
    (∀ entry ∈ renamed, ∀ e ∈ entry.2, Q e.key.buffer_id) →
    (∀ e ∈ (apply_renames_remove snaps renames new_tree old_rest renamed).1,
        Q e.key.buffer_id) ∧
      (∀ entry ∈ (apply_renames_remove snaps renames new_tree old_rest renamed).2,
        ∀ e ∈ entry.2, Q e.key.buffer_id) := by
  intro renames
  induction renames with
  | nil =>
    intro new_tree old_rest renamed hren hnt hor hmap
    constructor
    · intro e he
      rcases List.mem_append.mp he with h | h
      · exact hnt e h
      · exact hor e h
    · exact hmap
  | cons r rest ih =>
    intro new_tree old_rest renamed hren hnt hor hmap
    obtain ⟨bid, old_path, new_path⟩ := r
    rw [apply_renames_remove]
    have hbid : Q bid := hren (bid, old_path, new_path) (by simp)
    set target : ExcerptKey :=
      ⟨old_path, bid,
        ⟨((snapLookup snaps bid).getD missingSnapshot).min_anchor,
         ((snapLookup snaps bid).getD missingSnapshot).max_anchor⟩⟩ with htarget
    have hs1 : ∀ e ∈ (seek_consume target .left old_rest).1, Q e.key.buffer_id :=
      fun e he => hor e (mem_of_seek_consume_fst he)
    have hs2 : ∀ e ∈ (seek_consume target .left old_rest).2, Q e.key.buffer_id :=
      fun e he => hor e (mem_of_seek_consume_snd he)
    have hrun : ∀ e ∈
        (collect_run bid new_path (seek_consume target .left old_rest).2).1,
        Q e.key.buffer_id := by
      intro e he
      rw [collect_run_fst_ids bid new_path _ e he]
      exact hbid
    have hrun2 : ∀ e ∈
        (collect_run bid new_path (seek_consume target .left old_rest).2).2,
        Q e.key.buffer_id :=
      fun e he => hs2 e (collect_run_snd_sub bid new_path _ e he)
    refine ih _ _ _ (fun r hr => hren r (List.mem_cons_of_mem _ hr)) ?_ hrun2 ?_
    · intro e he
      rcases List.mem_append.mp he with h | h
      · exact hnt e h
      · exact hs1 e h
    · split
      · exact hmap
      · exact renamedInsert_covered hrun _ hmap _

theorem apply_renames_reinsert_covered {Q : BufferId → Prop} {snaps : SnapMap} :
    ∀ (entries : List ((Option Path × BufferId) × List Excerpt))
      (new_tree old_rest : List Excerpt),
    (∀ entry ∈ entries, ∀ e ∈ entry.2, Q e.key.buffer_id) →
    (∀ e ∈ new_tree, Q e.key.buffer_id) →
    (∀ e ∈ old_rest, Q e.key.buffer_id) →
    ∀ e ∈ apply_renames_reinsert snaps entries new_tree old_rest,
      Q e.key.buffer_id := by
  intro entries
  induction entries with
  | nil =>
    intro new_tree old_rest hentries hnt hor e he
    rcases List.mem_append.mp he with h | h
    · exact hnt e h
    · exact hor e h
  | cons entry rest ih =>
    intro new_tree old_rest hentries hnt hor e he
    obtain ⟨⟨new_path, bid⟩, excerpts⟩ := entry
    rw [apply_renames_reinsert] at he
    refine ih _ _ (fun en hen => hentries en (List.mem_cons_of_mem _ hen)) ?_
      (fun x hx => hor x (mem_of_seek_consume_snd hx)) e he
    intro x hx
    rcases List.mem_append.mp hx with h | h
    · rcases List.mem_append.mp h with h' | h'
      · exact hnt x h'
      · exact hor x (mem_of_seek_consume_fst h')
    · exact hentries ((new_path, bid), excerpts) (by simp) x h

theorem mem_sort_insert {x k : ExcerptKey} :
    ∀ {l : List ExcerptKey}, x ∈ sort_insert k l → x = k ∨ x ∈ l := by
  intro l
  induction l with
  | nil =>
    intro h
    rcases List.mem_singleton.mp h with rfl
    exact Or.inl rfl
  | cons y rest ih =>
    intro h
    rw [sort_insert] at h
    split at h
    · rcases List.mem_cons.mp h with rfl | h'
      · exact Or.inl rfl
      · exact Or.inr h'
    · rcases List.mem_cons.mp h with rfl | h'
      · exact Or.inr (by simp)
      · rcases ih h' with rfl | h''
        · exact Or.inl rfl
        · exact Or.inr (by simp [h''])

theorem mem_sort_new_excerpts {x : ExcerptKey} :
    ∀ {l : List ExcerptKey}, x ∈ sort_new_excerpts l → x ∈ l := by
  intro l
  induction l with
  | nil => intro h; cases h
  | cons y rest ih =>
    intro h
    rcases mem_sort_insert (l := sort_new_excerpts rest) h with rfl | h'
    · simp
    · exact List.mem_cons_of_mem _ (ih h')

theorem dedup_by_merge_aux_buffer_ids {Q : BufferId → Prop} :
    ∀ (l : List ExcerptKey) (b : ExcerptKey), Q b.buffer_id →
      (∀ a ∈ l, Q a.buffer_id) →
      ∀ x ∈ dedup_by_merge_aux b l, Q x.buffer_id := by
  intro l
  induction l with
  | nil =>
    intro b hb _ x hx
    rcases List.mem_singleton.mp hx with rfl
    exact hb
  | cons a rest ih =>
    intro b hb hl x hx
    rw [dedup_by_merge_aux] at hx
    split at hx
    · refine ih _ ?_ (fun a' ha' => hl a' (List.mem_cons_of_mem _ ha')) x hx
      split
      · split
        · exact hb
        · exact hb
      · split
        · exact hb
        · exact hb
    · rcases List.mem_cons.mp hx with rfl | hx'
      · exact hb
      · exact ih _ (hl a (by simp)) (fun a' ha' => hl a' (List.mem_cons_of_mem _ ha'))
          x hx'

theorem dedup_by_merge_buffer_ids {Q : BufferId → Prop} {l : List ExcerptKey}
    (hl : ∀ a ∈ l, Q a.buffer_id) :
    ∀ x ∈ dedup_by_merge l, Q x.buffer_id := by
  cases l with
  | nil => intro x hx; cases hx
  | cons b rest =>
    exact dedup_by_merge_aux_buffer_ids rest b (hl b (by simp))
      (fun a ha => hl a (List.mem_cons_of_mem _ ha))

theorem register_tree_eq (w : World) :
    ∀ (batch : List (BufferId × ARange)) (m : MultiBuffer),
      (register_new_excerpts w batch m).1.snapshot.excerpts =
        m.snapshot.excerpts := by
  intro batch
  induction batch with
  | nil => intro m; rfl
  | cons p rest ih =>
    intro m
    obtain ⟨bid, r⟩ := p
    rw [register_new_excerpts]
    split
    · rw [ih]
      split <;> rfl
    · exact ih m

theorem register_buffers_sub (w : World) :
    ∀ (batch : List (BufferId × ARange)) (m : MultiBuffer),
      ∀ b ∈ m.buffers, b ∈ (register_new_excerpts w batch m).1.buffers := by
  intro batch
  induction batch with
  | nil => intro m b hb; exact hb
  | cons p rest ih =>
    intro m b hb
    obtain ⟨bid, r⟩ := p
    rw [register_new_excerpts]
    split
    · apply ih
      split
      · exact hb
      · exact List.mem_cons_of_mem _ hb
    · exact ih m b hb

theorem register_covered (w : World) :
    ∀ (batch : List (BufferId × ARange)) (m : MultiBuffer),
      handles_covered m →
      handles_covered (register_new_excerpts w batch m).1 ∧
      (∀ k, (snapLookup m.snapshot.buffer_snapshots k).isSome = true →
        (snapLookup (register_new_excerpts w batch m).1.snapshot.buffer_snapshots
            k).isSome = true) ∧
      (∀ key ∈ (register_new_excerpts w batch m).2,
        (snapLookup (register_new_excerpts w batch m).1.snapshot.buffer_snapshots
            key.buffer_id).isSome = true) := by
  intro batch
  induction batch with
  | nil =>
    intro m hm
    exact ⟨hm, fun k h => h, fun key hkey => absurd hkey (List.not_mem_nil _)⟩
  | cons p rest ih =>
    intro m hm
    obtain ⟨bid, r⟩ := p
    rw [register_new_excerpts]
    split
    · by_cases hc : m.buffers.contains bid
      · rw [if_pos hc]
        obtain ⟨h1, h2, h3⟩ := ih m hm
        have hbid : (snapLookup m.snapshot.buffer_snapshots bid).isSome = true :=
          hm bid (by simpa using hc)
        refine ⟨h1, h2, ?_⟩
        intro key hkey
        rcases List.mem_cons.mp hkey with rfl | hkey'
        · exact h2 bid hbid
        · exact h3 key hkey'
      · rw [if_neg hc]
        set m' : MultiBuffer :=
          { m with
            buffers := bid :: m.buffers,
            snapshot := { m.snapshot with
              buffer_snapshots :=
                snapInsert m.snapshot.buffer_snapshots bid (w bid) } } with hm'
        have hm'cov : handles_covered m' := by
          intro b hb
          rcases List.mem_cons.mp hb with rfl | hb'
          · show (snapLookup (snapInsert m.snapshot.buffer_snapshots b (w b)) b).isSome = true
            rw [snapLookup_snapInsert_self]
            rfl
          · exact snapLookup_snapInsert_mono bid (w bid) _ b (hm b hb')
        obtain ⟨h1, h2, h3⟩ := ih m' hm'cov
        refine ⟨h1, ?_, ?_⟩
        · intro k hk
          exact h2 k (snapLookup_snapInsert_mono bid (w bid) _ k hk)
        · intro key hkey
          rcases List.mem_cons.mp hkey with rfl | hkey'
          · apply h2
            show (snapLookup (snapInsert m.snapshot.buffer_snapshots bid (w bid))
                bid).isSome = true
            rw [snapLookup_snapInsert_self]
            rfl
          · exact h3 key hkey'
    · exact ih m hm

theorem sync_preserves_covered {m : MultiBuffer} (w : World)
    (h1 : snapshot_covered m.snapshot) (h2 : handles_covered m) :
    snapshot_covered (m.sync w).snapshot ∧ handles_covered (m.sync w) := by
  rw [MultiBuffer.sync, MultiBuffer.apply_edits, MultiBuffer.apply_renames]
  set newMap := (sync_collect w m.snapshot.buffer_snapshots).2.2 with hnewMap
  have hkeys : ∀ k, (snapLookup newMap k).isSome =
      (snapLookup m.snapshot.buffer_snapshots k).isSome :=
    fun k => snapLookup_sync_collect w m.snapshot.buffer_snapshots k
  have Qdef : ∀ e : Excerpt, e ∈ m.snapshot.excerpts →
      (snapLookup newMap e.key.buffer_id).isSome = true := by
    intro e he
    rw [hkeys]
    exact h1 e he
  have hren : ∀ r ∈ (sync_collect w m.snapshot.buffer_snapshots).1,
      (snapLookup newMap r.1).isSome = true := by
    intro r hr
    rw [hkeys]
    exact sync_collect_renames_covered w _ r hr
  have hphase1 := @apply_renames_remove_covered
    (fun bid => (snapLookup newMap bid).isSome = true) newMap
    (sync_collect w m.snapshot.buffer_snapshots).1 [] m.snapshot.excerpts []
    hren (fun e he => absurd he (List.not_mem_nil _)) Qdef
    (fun entry hentry => absurd hentry (List.not_mem_nil _))
  have hphase2 := @apply_renames_reinsert_covered
    (fun bid => (snapLookup newMap bid).isSome = true) newMap _ [] _
    hphase1.2 (fun e he => absurd he (List.not_mem_nil _)) hphase1.1
  constructor
  · intro e he
    exact hphase2 e he
  · intro b hb
    rw [show (snapLookup newMap b).isSome =
        (snapLookup m.snapshot.buffer_snapshots b).isSome from hkeys b] at *
    exact h2 b hb

theorem insert_preserves_covered {m : MultiBuffer} (w : World)
    (batch : List (BufferId × ARange))
    (h1 : snapshot_covered m.snapshot) (h2 : handles_covered m) :
    snapshot_covered (m.insert_excerpts w batch).snapshot ∧
      handles_covered (m.insert_excerpts w batch) := by
  rw [MultiBuffer.insert_excerpts]
  obtain ⟨hs1, hs2⟩ := sync_preserves_covered w h1 h2
  obtain ⟨hr1, hr2, hr3⟩ := register_covered w batch (m.sync w) hs2
  set reg := register_new_excerpts w batch (m.sync w) with hreg
  have htree : ∀ e ∈ reg.1.snapshot.excerpts,
      (snapLookup reg.1.snapshot.buffer_snapshots e.key.buffer_id).isSome = true := by
    intro e he
    rw [register_tree_eq w batch (m.sync w)] at he
    exact hr2 _ (hs1 e he)
  have hkeys : ∀ k ∈ dedup_by_merge (sort_new_excerpts reg.2),
      (snapLookup reg.1.snapshot.buffer_snapshots k.buffer_id).isSome = true :=
    dedup_by_merge_buffer_ids
      (Q := fun bid => (snapLookup reg.1.snapshot.buffer_snapshots bid).isSome = true)
      (fun a ha => hr3 a (mem_sort_new_excerpts ha))
  constructor
  · intro e he
    exact insert_loop_buffer_ids
      (Q := fun bid => (snapLookup reg.1.snapshot.buffer_snapshots bid).isSome = true)
      _ _ _ _ hkeys (fun x hx => absurd hx (List.not_mem_nil _)) htree
      (fun x hx => by cases hx) e he
  · exact hr1

theorem reachable_covered {m : MultiBuffer} (h : Reachable m) :
    snapshot_covered m.snapshot ∧ handles_covered m := by
  induction h with
  | init =>
    exact ⟨fun e he => absurd he (List.not_mem_nil _),
      fun b hb => absurd hb (List.not_mem_nil _)⟩
  | insert w batch _ ih => exact insert_preserves_covered w batch ih.1 ih.2
  | sync w _ ih => exact sync_preserves_covered w ih.1 ih.2

/-- C9: in every reachable state, every excerpt's document id has an entry in
the snapshot map, so the `expect`/`unwrap` lookups performed when summarizing
excerpts, rendering text and seeking never find the entry missing. -/
theorem c9_snapshot_map_covers_tree (m : MultiBuffer) (h : Reachable m) :
    snapshot_covered m.snapshot :=
  (reachable_covered h).1

/-- Witness for C9 at a concrete reachable state with a non-empty tree. -/
theorem c9_snapshot_map_covers_tree_witness :
    snapshot_covered rt_state1.snapshot ∧
    rt_state1.snapshot.excerpts ≠ [] :=
  ⟨c9_snapshot_map_covers_tree rt_state1
      (Reachable.insert rt_world _ Reachable.init),
    by decide⟩

theorem ordering_then_assoc (a b c : Ordering) :
    (a.then b).then c = a.then (b.then c) := by
  cases a <;> cases b <;> cases c <;> rfl

theorem nat_compare_succ (a b : Nat) : compare (a + 1) (b + 1) = compare a b := by
  rcases Nat.lt_trichotomy a b with h | rfl | h
  · rw [Nat.compare_eq_lt.mpr h, Nat.compare_eq_lt.mpr (by omega)]
  · rw [Nat.compare_eq_eq.mpr rfl, Nat.compare_eq_eq.mpr rfl]
  · rw [Nat.compare_eq_gt.mpr h, Nat.compare_eq_gt.mpr (by omega)]

theorem optPathCmp_eq_compare (a b : Option Path) :
    optPathCmp a b = compare (pathRank a) (pathRank b) := by
  cases a <;> cases b
  · rfl
  · exact (Nat.compare_eq_lt.mpr (by simp [pathRank])).symm
  · exact (Nat.compare_eq_gt.mpr (by simp [pathRank])).symm
  · exact (nat_compare_succ _ _).symm

theorem pathRank_inj {a b : Option Path} (h : pathRank a = pathRank b) : a = b := by
  cases a <;> cases b <;> simp_all [pathRank]

theorem pid_cmp_eq_lt {a b : ExcerptKey} :
    pid_cmp a b = .lt ↔
      pathRank a.path < pathRank b.path ∨
        (pathRank a.path = pathRank b.path ∧
          (a.buffer_id.remote_id < b.buffer_id.remote_id ∨
            (a.buffer_id.remote_id = b.buffer_id.remote_id ∧
              a.buffer_id.replica_id < b.buffer_id.replica_id))) := by
  rw [pid_cmp, optPathCmp_eq_compare, BufferId.cmp]
  simp [ordering_then_eq_lt, Nat.compare_eq_lt, Nat.compare_eq_eq]

theorem pid_cmp_eq_eq {a b : ExcerptKey} :
    pid_cmp a b = .eq ↔ a.path = b.path ∧ a.buffer_id = b.buffer_id := by
  rw [pid_cmp, ordering_then_eq_eq, optPathCmp_eq_compare]
  constructor
  · rintro ⟨h1, h2⟩
    exact ⟨pathRank_inj (Nat.compare_eq_eq.mp h1), buffer_id_cmp_eq_iff.mp h2⟩
  · rintro ⟨h1, h2⟩
    exact ⟨Nat.compare_eq_eq.mpr (by rw [h1]), buffer_id_cmp_eq_iff.mpr h2⟩

theorem pid_cmp_congr_right {a b c : ExcerptKey} (hp : b.path = c.path)
    (hb : b.buffer_id = c.buffer_id) : pid_cmp a b = pid_cmp a c := by
  rw [pid_cmp, pid_cmp, hp, hb]

theorem pid_cmp_congr_left {a b c : ExcerptKey} (hp : a.path = b.path)
    (hb : a.buffer_id = b.buffer_id) : pid_cmp a c = pid_cmp b c := by
  rw [pid_cmp, pid_cmp, hp, hb]

theorem pid_cmp_lt_of_lt_of_not_gt {a b c : ExcerptKey}
    (h1 : pid_cmp a b = .lt) (h2 : pid_cmp b c ≠ .gt) : pid_cmp a c = .lt := by
  rcases h : pid_cmp b c with _ | _ | _
  · rw [pid_cmp_eq_lt] at h1 h ⊢
    omega
  · obtain ⟨hp, hb⟩ := pid_cmp_eq_eq.mp h
    rw [← pid_cmp_congr_right hp hb]
    exact h1
  · exact absurd h h2

theorem key_cmp_decompose (a b : ExcerptKey) :
    ExcerptKey.cmp a b = (pid_cmp a b).then (ARange.cmp a.range b.range) := by
  rw [ExcerptKey.cmp, pid_cmp, ordering_then_assoc]

theorem key_cmp_gt_of_pid_gt {a b : ExcerptKey} (h : pid_cmp a b = .gt) :
    ExcerptKey.cmp a b = .gt := by
  rw [key_cmp_decompose, h]
  rfl

theorem pid_not_gt_of_cmp_not_gt {a b : ExcerptKey}
    (h : ExcerptKey.cmp a b ≠ .gt) : pid_cmp a b ≠ .gt :=
  fun hp => h (key_cmp_gt_of_pid_gt hp)

theorem pid_not_gt_of_key_lt {a b : ExcerptKey} (h : ExcerptKey.cmp a b = .lt) :
    pid_cmp a b ≠ .gt :=
  pid_not_gt_of_cmp_not_gt (by rw [h]; intro hh; cases hh)

theorem pid_not_gt_of_eq_of_not_gt {a b c : ExcerptKey}
    (h1 : pid_cmp a b = .eq) (h2 : pid_cmp b c ≠ .gt) : pid_cmp a c ≠ .gt := by
  obtain ⟨hp, hb⟩ := pid_cmp_eq_eq.mp h1
  rw [pid_cmp_congr_left hp hb]
  exact h2

theorem range_cmp_eq_lt {a b : ARange} :
    ARange.cmp a b = .lt ↔
      Anchor.cmp a.start b.start = .lt ∨
        (a.start = b.start ∧ Anchor.cmp b.stop a.stop = .lt) := by
  rw [ARange.cmp, ordering_then_eq_lt, anchor_cmp_eq_eq]

theorem range_cmp_eq_eq {a b : ARange} : ARange.cmp a b = .eq ↔ a = b := by
  rw [ARange.cmp, ordering_then_eq_eq]
  constructor
  · rintro ⟨h1, h2⟩
    have e1 := anchor_cmp_eq_eq.mp h1
    have e2 := anchor_cmp_eq_eq.mp h2
    cases a; cases b
    simp_all
  · rintro rfl
    exact ⟨anchor_cmp_self _, anchor_cmp_self _⟩

theorem range_cmp_lt_trans {a b c : ARange} (h1 : ARange.cmp a b = .lt)
    (h2 : ARange.cmp b c = .lt) : ARange.cmp a c = .lt := by
  rw [range_cmp_eq_lt] at h1 h2 ⊢
  rcases h1 with h1 | ⟨e1, s1⟩ <;> rcases h2 with h2 | ⟨e2, s2⟩
  · exact Or.inl (anchor_cmp_lt_trans h1 h2)
  · exact Or.inl (by rw [← e2]; exact h1)
  · exact Or.inl (by rw [e1]; exact h2)
  · exact Or.inr ⟨e1.trans e2, anchor_cmp_lt_trans s2 s1⟩

theorem key_cmp_lt_trans {a b c : ExcerptKey} (h1 : ExcerptKey.cmp a b = .lt)
    (h2 : ExcerptKey.cmp b c = .lt) : ExcerptKey.cmp a c = .lt := by
  rw [key_cmp_decompose, ordering_then_eq_lt] at h1 h2 ⊢
  rcases h1 with h1 | ⟨p1, r1⟩ <;> rcases h2 with h2 | ⟨p2, r2⟩
  · exact Or.inl (pid_cmp_lt_of_lt_of_not_gt h1 (by rw [h2]; intro hh; cases hh))
  · obtain ⟨hp, hb⟩ := pid_cmp_eq_eq.mp p2
    exact Or.inl (by rw [← pid_cmp_congr_right hp hb]; exact h1)
  · obtain ⟨hp, hb⟩ := pid_cmp_eq_eq.mp p1
    exact Or.inl (by rw [pid_cmp_congr_left hp hb]; exact h2)
  · obtain ⟨hp1, hb1⟩ := pid_cmp_eq_eq.mp p1
    obtain ⟨hp2, hb2⟩ := pid_cmp_eq_eq.mp p2
    exact Or.inr ⟨pid_cmp_eq_eq.mpr ⟨hp1.trans hp2, hb1.trans hb2⟩,
      range_cmp_lt_trans r1 r2⟩

theorem sorted_cons_all {e : Excerpt} {rest : List Excerpt}
    (h : sorted_excerpts (e :: rest)) :
    (∀ x ∈ rest, ExcerptKey.cmp e.key x.key = .lt) ∧ sorted_excerpts rest := by
  haveI : IsTrans Excerpt (fun a b => ExcerptKey.cmp a.key b.key = .lt) :=
    ⟨fun a b c h1 h2 => key_cmp_lt_trans h1 h2⟩
  rw [sorted_excerpts, List.chain'_iff_pairwise] at h
  rcases List.pairwise_cons.mp h with ⟨h1, h2⟩
  exact ⟨h1, by rw [sorted_excerpts, List.chain'_iff_pairwise]; exact h2⟩

theorem no_b_after {t : ExcerptKey} {b : BufferId} {po : Option Path}
    (htp : t.path = po) (htb : t.buffer_id = b)
    {e : Excerpt} (hne : e.key.buffer_id ≠ b) (hnotgt : pid_cmp t e.key ≠ .gt)
    {x : Excerpt} (hlt : ExcerptKey.cmp e.key x.key = .lt)
    (hxb : x.key.buffer_id = b) (hxp : x.key.path = po) : False := by
  have h1 : pid_cmp t e.key = .lt := by
    rcases hh : pid_cmp t e.key with _ | _ | _
    · rfl
    · obtain ⟨hp, hb⟩ := pid_cmp_eq_eq.mp hh
      exact absurd (hb.symm.trans htb) hne
    · exact absurd hh hnotgt
  have h3 : pid_cmp t x.key = .lt :=
    pid_cmp_lt_of_lt_of_not_gt h1 (pid_not_gt_of_key_lt hlt)
  have h4 : pid_cmp t x.key = .eq :=
    pid_cmp_eq_eq.mpr ⟨htp.trans hxp.symm, htb.trans hxb.symm⟩
  rw [h4] at h3
  cases h3

theorem seek_consume_eq (t : ExcerptKey) (bias : Bias) (l : List Excerpt) :
    seek_consume t bias l =
      (l.takeWhile (seek_passes t bias), l.dropWhile (seek_passes t bias)) := by
  induction l with
  | nil => rfl
  | cons e rest ih =>
    cases hc : ExcerptKey.cmp t e.key <;> cases bias <;>
      simp [seek_consume, seek_passes, hc, ih, List.takeWhile_cons,
        List.dropWhile_cons]

theorem collect_run_spec {b : BufferId} {po : Option Path} (pn : Option Path)
    {t : ExcerptKey} (htp : t.path = po) (htb : t.buffer_id = b) :
    ∀ (l : List Excerpt), sorted_excerpts l →
    (∀ x ∈ l, x.key.buffer_id = b → x.key.path = po) →
    (∀ x ∈ l, pid_cmp t x.key ≠ .gt) →
    collect_run b pn l =
      ((l.filter (fun e => e.key.buffer_id == b)).map (rekey_with_path pn),
        l.filter (fun e => !(e.key.buffer_id == b))) := by
  intro l
  induction l with
  | nil => intro _ _ _; rfl
  | cons e rest ih =>
    intro hsort hpaths hlb
    obtain ⟨hall, hsort'⟩ := sorted_cons_all hsort
    by_cases hid : e.key.buffer_id = b
    · rw [collect_run, if_pos hid,
        ih hsort' (fun x hx h => hpaths x (List.mem_cons_of_mem _ hx) h)
          (fun x hx => hlb x (List.mem_cons_of_mem _ hx))]
      rw [List.filter_cons_of_pos (by simp [hid]),
        List.filter_cons_of_neg (by simp [hid])]
      simp [rekey_with_path, hid]
    · have hnotgt : pid_cmp t e.key ≠ .gt := hlb e (by simp)
      have hnob : ∀ x ∈ rest, x.key.buffer_id ≠ b := by
        intro x hx hxb
        exact no_b_after htp htb hid hnotgt (hall x hx) hxb
          (hpaths x (List.mem_cons_of_mem _ hx) hxb)
      rw [collect_run, if_neg hid]
      rw [List.filter_cons_of_neg (by simp [hid]),
        List.filter_cons_of_pos (by simp [hid])]
      rw [List.filter_eq_nil_iff.mpr (by intro x hx; simp [hnob x hx]),
        List.filter_eq_self.mpr (by intro x hx; simp [hnob x hx])]
      rfl

theorem rename_stop_case {b : BufferId} {po : Option Path} (pn : Option Path)
    {t : ExcerptKey} (htp : t.path = po) (htb : t.buffer_id = b)
    {e : Excerpt} {rest : List Excerpt}
    (hsort : sorted_excerpts (e :: rest))
    (hpaths : ∀ x ∈ e :: rest, x.key.buffer_id = b → x.key.path = po)
    (hnotgt : pid_cmp t e.key ≠ .gt) :
    ([] : List Excerpt) ++ (collect_run b pn (e :: rest)).2 =
      (e :: rest).filter (fun x => !(x.key.buffer_id == b)) ∧
    (collect_run b pn (e :: rest)).1 =
      ((e :: rest).filter (fun x => x.key.buffer_id == b)).map (rekey_with_path pn) := by
  obtain ⟨hall, hsort'⟩ := sorted_cons_all hsort
  by_cases hid : e.key.buffer_id = b
  · have hpe : pid_cmp t e.key = .eq :=
      pid_cmp_eq_eq.mpr ⟨htp.trans (hpaths e (by simp) hid).symm, htb.trans hid.symm⟩
    have hlb : ∀ x ∈ e :: rest, pid_cmp t x.key ≠ .gt := by
      intro x hx
      rcases List.mem_cons.mp hx with rfl | hx'
      · rw [hpe]
        intro hh
        cases hh
      · exact pid_not_gt_of_eq_of_not_gt hpe (pid_not_gt_of_key_lt (hall x hx'))
    rw [collect_run_spec pn htp htb (e :: rest) hsort hpaths hlb]
    exact ⟨by rw [List.nil_append], rfl⟩
  · have hnob : ∀ x ∈ rest, x.key.buffer_id ≠ b := fun x hx hxb =>
      no_b_after htp htb hid hnotgt (hall x hx) hxb
        (hpaths x (List.mem_cons_of_mem _ hx) hxb)
    rw [collect_run, if_neg hid]
    constructor
    · rw [List.nil_append, List.filter_cons_of_pos (by simp [hid]),
        List.filter_eq_self.mpr (by intro x hx; simp [hnob x hx])]
    · rw [List.filter_cons_of_neg (by simp [hid]),
        List.filter_eq_nil_iff.mpr (by intro x hx; simp [hnob x hx])]
      rfl

theorem rename_phase1_split {b : BufferId} {po : Option Path} (pn : Option Path)
    {t : ExcerptKey} (htp : t.path = po) (htb : t.buffer_id = b) :
    ∀ (l : List Excerpt), sorted_excerpts l →
    (∀ x ∈ l, x.key.buffer_id = b → x.key.path = po) →
    (∀ x ∈ l, x.key.buffer_id = b → ExcerptKey.cmp t x.key ≠ .gt) →
    (seek_consume t .left l).1 ++ (collect_run b pn (seek_consume t .left l).2).2 =
      l.filter (fun e => !(e.key.buffer_id == b)) ∧
    (collect_run b pn (seek_consume t .left l).2).1 =
      (l.filter (fun e => e.key.buffer_id == b)).map (rekey_with_path pn) := by
  intro l
  induction l with
  | nil => exact fun _ _ _ => ⟨rfl, rfl⟩
  | cons e rest ih =>
    intro hsort hpaths hb
    obtain ⟨hall, hsort'⟩ := sorted_cons_all hsort
    have hrest_paths : ∀ x ∈ rest, x.key.buffer_id = b → x.key.path = po :=
      fun x hx h => hpaths x (List.mem_cons_of_mem _ hx) h
    cases hc : ExcerptKey.cmp t e.key with
    | gt =>
      have hne : e.key.buffer_id ≠ b := fun h => hb e (by simp) h hc
      have step : seek_consume t .left (e :: rest) =
          (e :: (seek_consume t .left rest).1, (seek_consume t .left rest).2) := by
        simp [seek_consume, hc]
      obtain ⟨ih1, ih2⟩ := ih hsort' hrest_paths
        (fun x hx h => hb x (List.mem_cons_of_mem _ hx) h)
      rw [step]
      constructor
      · rw [List.filter_cons_of_pos (by simp [hne])]
        rw [List.cons_append, ih1]
      · exact ih2.trans (by rw [List.filter_cons_of_neg (by simp [hne])])
    | lt =>
      have step : seek_consume t .left (e :: rest) = ([], e :: rest) := by
        simp [seek_consume, hc]
      rw [step]
      exact rename_stop_case pn htp htb hsort hpaths
        (pid_not_gt_of_cmp_not_gt (by rw [hc]; intro hh; cases hh))
    | eq =>
      have step : seek_consume t .left (e :: rest) = ([], e :: rest) := by
        simp [seek_consume, hc]
      rw [step]
      exact rename_stop_case pn htp htb hsort hpaths
        (pid_not_gt_of_cmp_not_gt (by rw [hc]; intro hh; cases hh))

theorem anchor_cmp_min_not_gt (x : Anchor) :
    Anchor.cmp ⟨0, .left⟩ x ≠ .gt := by
  intro h
  rw [anchor_cmp_eq_gt] at h
  rcases h with h | ⟨h1, h2, h3⟩
  · simp at h
  · cases h3

theorem anchor_cmp_max_not_gt {x : Anchor} {len : Nat} (h : x.offset ≤ len) :
    Anchor.cmp x ⟨len, .right⟩ ≠ .gt := by
  intro h'
  rw [anchor_cmp_eq_gt] at h'
  rcases h' with h' | ⟨h1, h2, h3⟩
  · simp at h'
    omega
  · cases h2

theorem apply_renames_single
    (m : MultiBuffer) (b : BufferId) (po pn : Option Path) (snapB : BufferSnapshot)
    (hlook : snapLookup m.snapshot.buffer_snapshots b = some snapB)
    (hsort : sorted_excerpts m.snapshot.excerpts)
    (hpaths : ∀ x ∈ m.snapshot.excerpts, x.key.buffer_id = b → x.key.path = po)
    (hranges : ∀ x ∈ m.snapshot.excerpts, x.key.buffer_id = b →
        x.key.range.stop.offset ≤ snapB.content.length) :
    (m.apply_renames [(b, po, pn)]).snapshot.excerpts =
      (m.snapshot.excerpts.filter (fun e => !(e.key.buffer_id == b))).takeWhile
          (seek_passes ⟨pn, b, ⟨snapB.min_anchor, snapB.max_anchor⟩⟩ .left) ++
        (m.snapshot.excerpts.filter (fun e => e.key.buffer_id == b)).map
          (rekey_with_path pn) ++
        (m.snapshot.excerpts.filter (fun e => !(e.key.buffer_id == b))).dropWhile
          (seek_passes ⟨pn, b, ⟨snapB.min_anchor, snapB.max_anchor⟩⟩ .left) := by
  have hget : (snapLookup m.snapshot.buffer_snapshots b).getD missingSnapshot = snapB := by
    rw [hlook]
    rfl
  set tree := m.snapshot.excerpts with htree
  set snaps := m.snapshot.buffer_snapshots with hsnaps
  set t : ExcerptKey := ⟨po, b, ⟨snapB.min_anchor, snapB.max_anchor⟩⟩ with ht
  have hB : ∀ x ∈ tree, x.key.buffer_id = b → ExcerptKey.cmp t x.key ≠ .gt := by
    intro x hx hxb
    have hpx := hpaths x hx hxb
    have hpid : pid_cmp t x.key = .eq := pid_cmp_eq_eq.mpr ⟨hpx.symm, hxb.symm⟩
    intro hgt
    rw [key_cmp_decompose, hpid] at hgt
    have hgt' : ARange.cmp t.range x.key.range = .gt := hgt
    rw [show ARange.cmp t.range x.key.range =
        (Anchor.cmp snapB.min_anchor x.key.range.start).then
          (Anchor.cmp x.key.range.stop snapB.max_anchor) from rfl,
      ordering_then_eq_gt] at hgt'
    rcases hgt' with hgt' | ⟨-, hgt'⟩
    · exact anchor_cmp_min_not_gt _ hgt'
    · exact anchor_cmp_max_not_gt (hranges x hx hxb) hgt'
  obtain ⟨hSplit1, hSplit2⟩ :=
    @rename_phase1_split b po pn t rfl rfl tree hsort hpaths hB
  set s := seek_consume t .left tree with hs
  set run := collect_run b pn s.2 with hrun
  have phase1_eq : apply_renames_remove snaps [(b, po, pn)] [] tree [] =
      (s.1 ++ run.2,
        if run.1 = [] then [] else [((pn, b), run.1)]) := by
    rw [apply_renames_remove, hget, apply_renames_remove, List.nil_append]
    rfl
  rw [MultiBuffer.apply_renames]
  show (apply_renames_reinsert snaps (apply_renames_remove snaps [(b, po, pn)] [] tree []).2
      [] (apply_renames_remove snaps [(b, po, pn)] [] tree []).1) = _
  rw [phase1_eq]
  by_cases hGnil : run.1 = []
  · have hfil : tree.filter (fun e => e.key.buffer_id == b) = [] := by
      rw [hGnil] at hSplit2
      exact List.map_eq_nil_iff.mp hSplit2.symm
    rw [if_pos hGnil, apply_renames_reinsert, List.nil_append, hSplit1, hfil,
      List.map_nil]
    rw [show (List.takeWhile
          (seek_passes ⟨pn, b, ⟨snapB.min_anchor, snapB.max_anchor⟩⟩ .left)
          (tree.filter (fun e => !(e.key.buffer_id == b)))) ++ [] ++
        (List.dropWhile
          (seek_passes ⟨pn, b, ⟨snapB.min_anchor, snapB.max_anchor⟩⟩ .left)
          (tree.filter (fun e => !(e.key.buffer_id == b)))) =
        tree.filter (fun e => !(e.key.buffer_id == b)) from by
      rw [List.append_nil, List.takeWhile_append_dropWhile]]
  · rw [if_neg hGnil, apply_renames_reinsert, hget, apply_renames_reinsert]
    rw [hSplit1, seek_consume_eq, hSplit2]
    simp [List.append_assoc]

theorem nodup_key_eq {mp : SnapMap} {b : BufferId} {s : BufferSnapshot}
    (hnodup : (mp.map Prod.fst).Nodup) (h1 : (b, s) ∈ mp) :
    ∀ p ∈ mp, p.1 = b → p = (b, s) := by
  induction mp with
  | nil => intro p hp; cases hp
  | cons kv rest ih =>
    intro p hp hpb
    rw [List.map_cons, List.nodup_cons] at hnodup
    rcases List.mem_cons.mp h1 with h1' | h1'
    · rcases List.mem_cons.mp hp with rfl | hp'
      · rw [← h1']
      · exfalso
        apply hnodup.1
        rw [← h1']
        show (b : BufferId) ∈ rest.map Prod.fst
        rw [← hpb]
        exact List.mem_map_of_mem Prod.fst hp'
    · rcases List.mem_cons.mp hp with rfl | hp'
      · exfalso
        apply hnodup.1
        rw [hpb]
        exact List.mem_map_of_mem Prod.fst h1'
      · exact ih hnodup.2 h1' p hp' hpb

theorem mem_snapLookup {mp : SnapMap} {b : BufferId} {s : BufferSnapshot}
    (hnodup : (mp.map Prod.fst).Nodup) (h1 : (b, s) ∈ mp) :
    snapLookup mp b = some s := by
  induction mp with
  | nil => cases h1
  | cons kv rest ih =>
    obtain ⟨k, v⟩ := kv
    rw [List.map_cons, List.nodup_cons] at hnodup
    rcases List.mem_cons.mp h1 with h1' | h1'
    · injection h1' with hk hv
      rw [snapLookup, if_pos hk.symm, ← hv]
    · have hk : k ≠ b := by
        intro hkb
        apply hnodup.1
        rw [hkb]
        exact List.mem_map.mpr ⟨(b, s), h1', rfl⟩
      rw [snapLookup, if_neg hk]
      exact ih hnodup.2 h1'

theorem snapLookup_update_map (b : BufferId) (v : BufferSnapshot) :
    ∀ (mp : SnapMap) (k : BufferId),
      snapLookup (mp.map (fun p => (p.1, if p.1 = b then v else p.2))) k =
        (snapLookup mp k).map (fun s => if k = b then v else s) := by
  intro mp
  induction mp with
  | nil => intro k; rfl
  | cons kv rest ih =>
    intro k
    obtain ⟨k', s'⟩ := kv
    rw [List.map_cons, snapLookup, snapLookup]
    by_cases hk : k' = k
    · subst hk
      rw [if_pos rfl, if_pos rfl]
      rfl
    · rw [if_neg hk, if_neg hk, ih]

theorem sync_collect_spec_single (w : World) (b : BufferId) :
    ∀ (mp : SnapMap),
    (∀ p ∈ mp, p.1 ≠ b → w p.1 = p.2) →
    (∀ p ∈ mp, p.1 = b → p.2.path ≠ (w b).path ∧ p.2.content = (w b).content ∧
        p.2.non_text_state_update_count = (w b).non_text_state_update_count) →
    (sync_collect w mp).1 =
      (mp.filter (fun p => p.1 == b)).map (fun p => (b, p.2.path, (w b).path)) ∧
    (sync_collect w mp).2.1 = [] ∧
    (sync_collect w mp).2.2 = mp.map (fun p => (p.1, if p.1 = b then w b else p.2)) := by
  intro mp
  induction mp with
  | nil => intro _ _; exact ⟨rfl, rfl, rfl⟩
  | cons kv rest ih =>
    intro hothers hb
    obtain ⟨k, s⟩ := kv
    obtain ⟨ih1, ih2, ih3⟩ := ih
      (fun p hp h => hothers p (List.mem_cons_of_mem _ hp) h)
      (fun p hp h => hb p (List.mem_cons_of_mem _ hp) h)
    by_cases hk : k = b
    · subst hk
      obtain ⟨hpath, hcontent, hcount⟩ := hb (k, s) (by simp) rfl
      have hren : (w k).path ≠ s.path := fun h => hpath h.symm
      have hed : edits_since s (w k) = [] := by
        rw [edits_since, if_pos hcontent]
      have hch : ((w k).non_text_state_update_count ≠
          s.non_text_state_update_count ∨ (w k).path ≠ s.path ∨
          edits_since s (w k) ≠ []) := Or.inr (Or.inl hren)
      refine ⟨?_, ?_, ?_⟩
      · rw [sync_collect]
        dsimp only
        rw [if_pos hren, ih1, List.filter_cons_of_pos (by simp), List.map_cons]
        rfl
      · rw [sync_collect]
        dsimp only
        rw [hed, List.map_nil, List.nil_append]
        exact ih2
      · rw [sync_collect]
        dsimp only
        rw [if_pos hch, ih3, List.map_cons]
        simp
    · have hw : w k = s := hothers (k, s) (by simp) hk
      have hed : edits_since s (w k) = [] := by
        rw [edits_since, if_pos (by rw [hw])]
      have hnoren : ¬ ((w k).path ≠ s.path) := by
        rw [hw]
        simp
      have hch : ¬ ((w k).non_text_state_update_count ≠
          s.non_text_state_update_count ∨ (w k).path ≠ s.path ∨
          edits_since s (w k) ≠ []) := by
        rw [hed, hw]
        simp
      refine ⟨?_, ?_, ?_⟩
      · rw [sync_collect]
        dsimp only
        rw [if_neg hnoren, List.nil_append, ih1,
          List.filter_cons_of_neg (by simp [hk])]
      · rw [sync_collect]
        dsimp only
        rw [hed, List.map_nil, List.nil_append]
        exact ih2
      · rw [sync_collect]
        dsimp only
        rw [if_neg hch, ih3, List.map_cons]
        simp [hk]

theorem filter_key_singleton {mp : SnapMap} {b : BufferId} {s : BufferSnapshot}
    (hnodup : (mp.map Prod.fst).Nodup) (hmem : (b, s) ∈ mp) :
    mp.filter (fun p => p.1 == b) = [(b, s)] := by
  induction mp with
  | nil => cases hmem
  | cons kv rest ih =>
    obtain ⟨k, v⟩ := kv
    rw [List.map_cons, List.nodup_cons] at hnodup
    rcases List.mem_cons.mp hmem with h | h
    · injection h with hk hv
      subst hk
      subst hv
      rw [List.filter_cons_of_pos (by simp),
        List.filter_eq_nil_iff.mpr ?nob]
      case nob =>
        intro p hp hpb
        simp only [beq_iff_eq] at hpb
        exact hnodup.1 (List.mem_map.mpr ⟨p, hp, hpb⟩)
    · have hk : k ≠ b := by
        intro hk
        apply hnodup.1
        rw [hk]
        exact List.mem_map.mpr ⟨(b, s), h, rfl⟩
      rw [List.filter_cons_of_neg (by simp [hk])]
      exact ih hnodup.2 h

/-- C6 (counterexample): renaming a document's path can change the composed
text.  With two documents, renaming the second one's path so that it sorts
before the first reorders the document groups, and `text()` changes
accordingly (the scenario of the source's commented-out
`test_rename_buffers`). -/
theorem c6_rename_changes_text :
    ren_state1 = ren_state0.sync ren_world1 ∧
    ren_state1.snapshot.text ≠ ren_state0.snapshot.text ∧
    ren_state0.snapshot.text =
      "\nThe quick\nbrown fox\njumps\nover the lazy dog".toList ∧
    ren_state1.snapshot.text =
      "\njumps\nover the lazy dog\nThe quick\nbrown fox".toList :=
  ⟨rfl, by decide, by decide, by decide⟩

/-- C6 (amended): synchronizing a single external rename of document `b`
from its cached path to a new one moves that document's excerpts, as one
block in unchanged internal order, to the position the new path sorts to;
every excerpt of `b` keeps its document id, anchor range, `touches_previous`
flag and `empty` flag (only the key's path is rewritten), and all other
documents' excerpts are untouched.  The composed text changes only by this
reordering of document blocks. -/
theorem c6_rename_preserves_excerpts
    (m : MultiBuffer) (w : World) (b : BufferId) (oldS : BufferSnapshot)
    (hmem : (b, oldS) ∈ m.snapshot.buffer_snapshots)
    (hnodup : (m.snapshot.buffer_snapshots.map Prod.fst).Nodup)
    (hothers : ∀ p ∈ m.snapshot.buffer_snapshots, p.1 ≠ b → w p.1 = p.2)
    (hbpath : oldS.path ≠ (w b).path)
    (hbcontent : oldS.content = (w b).content)
    (hbcount : oldS.non_text_state_update_count =
      (w b).non_text_state_update_count)
    (hsort : sorted_excerpts m.snapshot.excerpts)
    (hpaths : paths_consistent m.snapshot)
    (hranges : ranges_within m.snapshot) :
    (m.sync w).snapshot.excerpts =
      (m.snapshot.excerpts.filter (fun e => !(e.key.buffer_id == b))).takeWhile
          (seek_passes ⟨(w b).path, b,
            ⟨⟨0, .left⟩, ⟨(w b).content.length, .right⟩⟩⟩ .left) ++
        (m.snapshot.excerpts.filter (fun e => e.key.buffer_id == b)).map
          (rekey_with_path (w b).path) ++
        (m.snapshot.excerpts.filter (fun e => !(e.key.buffer_id == b))).dropWhile
          (seek_passes ⟨(w b).path, b,
            ⟨⟨0, .left⟩, ⟨(w b).content.length, .right⟩⟩⟩ .left) := by
  obtain ⟨hc1, hc2, hc3⟩ := sync_collect_spec_single w b m.snapshot.buffer_snapshots
    hothers
    (by
      intro p hp hpb
      have := nodup_key_eq hnodup hmem p hp hpb
      rw [this]
      exact ⟨hbpath, hbcontent, hbcount⟩)
  rw [MultiBuffer.sync, MultiBuffer.apply_edits]
  rw [hc1, hc3, filter_key_singleton hnodup hmem, List.map_cons, List.map_nil]
  have hlookb := mem_snapLookup hnodup hmem
  have happly := apply_renames_single
    { m with snapshot := { m.snapshot with
        buffer_snapshots := m.snapshot.buffer_snapshots.map
          (fun p => (p.1, if p.1 = b then w b else p.2)) } }
    b oldS.path (w b).path (w b)
    (by
      show snapLookup (m.snapshot.buffer_snapshots.map
        (fun p => (p.1, if p.1 = b then w b else p.2))) b = some (w b)
      rw [snapLookup_update_map, hlookb]
      simp)
    hsort
    (by
      intro x hx hxb
      obtain ⟨bs, hbs, hxp⟩ := hpaths x hx
      rw [hxb, hlookb] at hbs
      injection hbs with hbs
      rw [hxp, ← hbs])
    (by
      intro x hx hxb
      have hr := hranges x hx oldS (by rw [hxb]; exact hlookb)
      show x.key.range.stop.offset ≤ (w b).content.length
      rw [← hbcontent]
      exact hr)
  exact happly

/-- Witness for the amended C6 statement: the rename scenario of the
source's `test_rename_buffers`, with the second document renamed from path
11 to path 0. -/
theorem c6_rename_preserves_excerpts_witness :
    (ren_b2, (⟨some 11, "jumps over the lazy dog".toList, 0⟩ :
        BufferSnapshot)) ∈ ren_state0.snapshot.buffer_snapshots ∧
    (ren_state0.sync ren_world1).snapshot.excerpts =
      (ren_state0.snapshot.excerpts.filter
            (fun e => !(e.key.buffer_id == ren_b2))).takeWhile
          (seek_passes ⟨(ren_world1 ren_b2).path, ren_b2,
            ⟨⟨0, .left⟩, ⟨(ren_world1 ren_b2).content.length, .right⟩⟩⟩
            .left) ++
        (ren_state0.snapshot.excerpts.filter
            (fun e => e.key.buffer_id == ren_b2)).map
          (rekey_with_path (ren_world1 ren_b2).path) ++
        (ren_state0.snapshot.excerpts.filter
            (fun e => !(e.key.buffer_id == ren_b2))).dropWhile
          (seek_passes ⟨(ren_world1 ren_b2).path, ren_b2,
            ⟨⟨0, .left⟩, ⟨(ren_world1 ren_b2).content.length, .right⟩⟩⟩
            .left) :=
  ⟨by decide,
   c6_rename_preserves_excerpts ren_state0 ren_world1 ren_b2
     ⟨some 11, "jumps over the lazy dog".toList, 0⟩
     (by decide) (by decide) (by decide) (by decide) (by decide)
     (by decide) (by decide)
     (by
       intro e he
       fin_cases he <;> exact ⟨_, rfl, rfl⟩)
     (by
       intro e he bs hbs
       fin_cases he <;> (injection hbs with h; rw [← h]; decide))⟩

/-- C7: for a document with content `"abcdefghijklmnopqrstuvwxyz"`, inserting
excerpts for offset ranges `[0,2)` and `[4,12)` produces composed text
`"\nab\nefghijkl"`; then inserting `[4,6)` and `[8,10)` leaves it unchanged;
then inserting `[10,14)` and `[16,18)` produces `"\nab\nefghijklmn\nqr"`; and
finally inserting `[12,17)` merges the two tail excerpts, producing
`"\nab\nefghijklmnopqr"`. -/
theorem c7_round_trip :
    (rt_state1.get_snapshot rt_world).text = "\nab\nefghijkl".toList ∧
    (rt_state2.get_snapshot rt_world).text = "\nab\nefghijkl".toList ∧
    (rt_state3.get_snapshot rt_world).text = "\nab\nefghijklmn\nqr".toList ∧
    (rt_state4.get_snapshot rt_world).text = "\nab\nefghijklmnopqr".toList := by
  refine ⟨?_, ?_, ?_, ?_⟩ <;> decide

/-- C1 (falsified): the ordering invariant does not hold for every state
reachable by `insert_excerpts`/`snapshot`/synchronization calls.  After a
synchronization that observes two simultaneous renames whose old paths sort
opposite to their buffer ids, one buffer's excerpts are left behind under a
stale path; a later insertion of an overlapping excerpt of that buffer then
produces adjacent excerpts of the same document whose ranges overlap, so
`check_invariants`' own assertion (earlier end strictly before later start)
evaluates to false. -/
theorem c1_ordering_invariant_violated :
    Reachable ivb_state ∧
    check_invariants_list ivb_state.snapshot.excerpts = false ∧
    ordered_invariant ivb_state.snapshot = false := by
  refine ⟨?_, by decide, by decide⟩
  exact Reachable.insert ivb_world1 _
    (Reachable.sync ivb_world1 (Reachable.insert ivb_world0 _ Reachable.init))

/-- C5 (falsified): edit reconciliation is not implemented.  `apply_edits`
discards every queued edit and returns the state unchanged; in particular,
after an external edit that fully deletes an excerpt's content, the excerpt
is not removed — synchronization replaces the cached snapshot (the content
is now empty) but leaves the excerpt tree untouched. -/
theorem c5_edits_never_reconciled :
    (∀ (m : MultiBuffer) (edits : List (Option Path × BufferId × Edit)),
        m.apply_edits edits = m) ∧
    edit_state1.snapshot.excerpts = edit_state0.snapshot.excerpts ∧
    edit_state0.snapshot.excerpts ≠ [] ∧
    snapLookup edit_state1.snapshot.buffer_snapshots edit_buffer =
      some ⟨none, [], 0⟩ := by
  exact ⟨fun m edits => rfl, by decide, by decide, by decide⟩

theorem ordering_swap_isGE (o : Ordering) : o.swap.isGE = o.isLE := by
  cases o <;> rfl

theorem nat_compare_swap (a b : Nat) : (compare a b).swap = compare b a := by
  rcases Nat.lt_trichotomy a b with h | h | h
  · rw [Nat.compare_eq_lt.mpr h, Nat.compare_eq_gt.mpr h]
    rfl
  · rw [Nat.compare_eq_eq.mpr h, Nat.compare_eq_eq.mpr h.symm]
    rfl
  · rw [Nat.compare_eq_gt.mpr h, Nat.compare_eq_lt.mpr h]
    rfl

theorem ordering_then_swap (a b : Ordering) :
    (a.then b).swap = a.swap.then b.swap := by
  cases a <;> cases b <;> rfl

theorem anchor_cmp_swap (a b : Anchor) :
    (Anchor.cmp a b).swap = Anchor.cmp b a := by
  rw [Anchor.cmp, Anchor.cmp, ordering_then_swap, nat_compare_swap,
    nat_compare_swap]

theorem optPathCmp_refl (p : Option Path) : optPathCmp p p = .eq := by
  cases p with
  | none => rfl
  | some a => exact Nat.compare_eq_eq.mpr rfl

theorem key_cmp_same_pid (p : Option Path) (b : BufferId) (ra rb : ARange) :
    ExcerptKey.cmp ⟨p, b, ra⟩ ⟨p, b, rb⟩ =
      (Anchor.cmp ra.start rb.start).then (Anchor.cmp rb.stop ra.stop) := by
  rw [ExcerptKey.cmp]
  dsimp only
  rw [optPathCmp_refl, buffer_id_cmp_eq_iff.mpr rfl]
  rfl

theorem range_union_comm (a b : ARange) : range_union a b = range_union b a := by
  obtain ⟨s1, t1⟩ := a
  obtain ⟨s2, t2⟩ := b
  have h1 := anchor_cmp_swap s1 s2
  have h2 := anchor_cmp_swap t1 t2
  rcases hs : Anchor.cmp s1 s2 with _ | _ | _
  · rcases he : Anchor.cmp t1 t2 with _ | _ | _
    · rw [hs] at h1
      rw [he] at h2
      simp only [Ordering.swap] at h1
      simp only [Ordering.swap] at h2
      simp [range_union, anchor_min, anchor_max, hs, he, h1.symm, h2.symm]
    · obtain rfl : t1 = t2 := anchor_cmp_eq_eq.mp he
      rw [hs] at h1
      simp only [Ordering.swap] at h1
      simp [range_union, anchor_min, anchor_max, hs, he, h1.symm]
    · rw [hs] at h1
      rw [he] at h2
      simp only [Ordering.swap] at h1
      simp only [Ordering.swap] at h2
      simp [range_union, anchor_min, anchor_max, hs, he, h1.symm, h2.symm]
  · obtain rfl : s1 = s2 := anchor_cmp_eq_eq.mp hs
    rcases he : Anchor.cmp t1 t2 with _ | _ | _
    · rw [he] at h2
      simp only [Ordering.swap] at h2
      simp [range_union, anchor_min, anchor_max, hs, he, h2.symm]
    · obtain rfl : t1 = t2 := anchor_cmp_eq_eq.mp he
      simp [range_union, anchor_min, anchor_max, hs, he]
    · rw [he] at h2
      simp only [Ordering.swap] at h2
      simp [range_union, anchor_min, anchor_max, hs, he, h2.symm]
  · rcases he : Anchor.cmp t1 t2 with _ | _ | _
    · rw [hs] at h1
      rw [he] at h2
      simp only [Ordering.swap] at h1
      simp only [Ordering.swap] at h2
      simp [range_union, anchor_min, anchor_max, hs, he, h1.symm, h2.symm]
    · obtain rfl : t1 = t2 := anchor_cmp_eq_eq.mp he
      rw [hs] at h1
      simp only [Ordering.swap] at h1
      simp [range_union, anchor_min, anchor_max, hs, he, h1.symm]
    · rw [hs] at h1
      rw [he] at h2
      simp only [Ordering.swap] at h1
      simp only [Ordering.swap] at h2
      simp [range_union, anchor_min, anchor_max, hs, he, h1.symm, h2.symm]

theorem dedup_two (p : Option Path) (b : BufferId) (r1 r2 : ARange)
    (ht1 : (Anchor.cmp r1.start r2.stop).isLE = true)
    (ht2 : (Anchor.cmp r2.start r1.stop).isLE = true) :
    dedup_by_merge (sort_new_excerpts [⟨p, b, r1⟩, ⟨p, b, r2⟩]) =
      [⟨p, b, range_union r1 r2⟩] := by
  obtain ⟨s1, t1⟩ := r1
  obtain ⟨s2, t2⟩ := r2
  dsimp only at ht1 ht2
  have hge21 : (Anchor.cmp t2 s1).isGE = true := by
    rw [← anchor_cmp_swap, ordering_swap_isGE]
    exact ht1
  have hge12 : (Anchor.cmp t1 s2).isGE = true := by
    rw [← anchor_cmp_swap, ordering_swap_isGE]
    exact ht2
  have h1 := anchor_cmp_swap s1 s2
  have h2 := anchor_cmp_swap t1 t2
  rcases hs : Anchor.cmp s1 s2 with _ | _ | _
  · rcases he : Anchor.cmp t1 t2 with _ | _ | _
    · rw [hs] at h1
      rw [he] at h2
      simp only [Ordering.swap] at h1
      simp only [Ordering.swap] at h2
      simp [sort_new_excerpts, sort_insert, dedup_by_merge, dedup_by_merge_aux, key_cmp_same_pid, hs, he, h1.symm, h2.symm, hge21, hge12, ht1, ht2, range_union, anchor_min, anchor_max, Ordering.then]
    · obtain rfl : t1 = t2 := anchor_cmp_eq_eq.mp he
      rw [hs] at h1
      simp only [Ordering.swap] at h1
      simp [sort_new_excerpts, sort_insert, dedup_by_merge, dedup_by_merge_aux, key_cmp_same_pid, hs, he, h1.symm, hge21, hge12, ht1, ht2, range_union, anchor_min, anchor_max, Ordering.then]
    · rw [hs] at h1
      rw [he] at h2
      simp only [Ordering.swap] at h1
      simp only [Ordering.swap] at h2
      simp [sort_new_excerpts, sort_insert, dedup_by_merge, dedup_by_merge_aux, key_cmp_same_pid, hs, he, h1.symm, h2.symm, hge21, hge12, ht1, ht2, range_union, anchor_min, anchor_max, Ordering.then]
  · obtain rfl : s1 = s2 := anchor_cmp_eq_eq.mp hs
    rcases he : Anchor.cmp t1 t2 with _ | _ | _
    · rw [he] at h2
      simp only [Ordering.swap] at h2
      simp [sort_new_excerpts, sort_insert, dedup_by_merge, dedup_by_merge_aux, key_cmp_same_pid, hs, he, h2.symm, hge21, hge12, ht1, ht2, range_union, anchor_min, anchor_max, Ordering.then]
    · obtain rfl : t1 = t2 := anchor_cmp_eq_eq.mp he
      simp [sort_new_excerpts, sort_insert, dedup_by_merge, dedup_by_merge_aux, key_cmp_same_pid, hs, he, hge21, hge12, ht1, ht2, range_union, anchor_min, anchor_max, Ordering.then]
    · rw [he] at h2
      simp only [Ordering.swap] at h2
      simp [sort_new_excerpts, sort_insert, dedup_by_merge, dedup_by_merge_aux, key_cmp_same_pid, hs, he, h2.symm, hge21, hge12, ht1, ht2, range_union, anchor_min, anchor_max, Ordering.then]
  · rcases he : Anchor.cmp t1 t2 with _ | _ | _
    · rw [hs] at h1
      rw [he] at h2
      simp only [Ordering.swap] at h1
      simp only [Ordering.swap] at h2
      simp [sort_new_excerpts, sort_insert, dedup_by_merge, dedup_by_merge_aux, key_cmp_same_pid, hs, he, h1.symm, h2.symm, hge21, hge12, ht1, ht2, range_union, anchor_min, anchor_max, Ordering.then]
    · obtain rfl : t1 = t2 := anchor_cmp_eq_eq.mp he
      rw [hs] at h1
      simp only [Ordering.swap] at h1
      simp [sort_new_excerpts, sort_insert, dedup_by_merge, dedup_by_merge_aux, key_cmp_same_pid, hs, he, h1.symm, hge21, hge12, ht1, ht2, range_union, anchor_min, anchor_max, Ordering.then]
    · rw [hs] at h1
      rw [he] at h2
      simp only [Ordering.swap] at h1
      simp only [Ordering.swap] at h2
      simp [sort_new_excerpts, sort_insert, dedup_by_merge, dedup_by_merge_aux, key_cmp_same_pid, hs, he, h1.symm, h2.symm, hge21, hge12, ht1, ht2, range_union, anchor_min, anchor_max, Ordering.then]

theorem register_two_same (w : World) (b : BufferId) (r1 r2 : ARange)
    (hv1 : Anchor.cmp r1.stop r1.start = .gt)
    (hv2 : Anchor.cmp r2.stop r2.start = .gt) :
    register_new_excerpts w [(b, r1), (b, r2)] MultiBuffer.new =
      (⟨⟨[], [(b, w b)]⟩, [b]⟩,
       [⟨(w b).path, b, r1⟩, ⟨(w b).path, b, r2⟩]) := by
  rw [register_new_excerpts]
  dsimp only
  rw [if_pos hv1,
    if_neg (by simp [MultiBuffer.new] : ¬ (MultiBuffer.new.buffers.contains b = true))]
  rw [register_new_excerpts]
  dsimp only
  rw [if_pos hv2,
    if_pos (by simp : ((b :: MultiBuffer.new.buffers).contains b = true))]
  rfl

theorem insert_loop_single (snaps : SnapMap) (k : ExcerptKey) :
    insert_excerpts_loop snaps [k] [] [] none =
      [⟨k, false, k.range.offset_is_empty⟩] := rfl

theorem sync_collect_fixed (w : World) :
    ∀ (mp : SnapMap), (∀ p ∈ mp, w p.1 = p.2) →
      sync_collect w mp = ([], [], mp) := by
  intro mp
  induction mp with
  | nil => intro _; rfl
  | cons kv rest ih =>
    intro h
    obtain ⟨k, s⟩ := kv
    have hw : w k = s := h (k, s) (by simp)
    have hed : edits_since s (w k) = [] := by
      rw [edits_since, if_pos (by rw [hw])]
    have hren : ¬ ((w k).path ≠ s.path) := by
      rw [hw]
      simp
    have hch : ¬ ((w k).non_text_state_update_count ≠
        s.non_text_state_update_count ∨ (w k).path ≠ s.path ∨
        edits_since s (w k) ≠ []) := by
      rw [hed, hw]
      simp
    rw [sync_collect]
    rw [if_neg hren, if_neg hch, hed,
      ih (fun p hp => h p (List.mem_cons_of_mem _ hp)), hw]
    simp

theorem sync_fixed (m : MultiBuffer) (w : World)
    (h : ∀ p ∈ m.snapshot.buffer_snapshots, w p.1 = p.2) : m.sync w = m := by
  rw [MultiBuffer.sync]
  dsimp only
  rw [sync_collect_fixed w _ h]
  rfl

theorem insert_loop_touching (snaps : SnapMap) (p : Option Path) (b : BufferId)
    (r1 r2 : ARange)
    (hv1 : Anchor.cmp r1.stop r1.start = .gt)
    (ht1 : (Anchor.cmp r1.start r2.stop).isLE = true)
    (ht2 : (Anchor.cmp r2.start r1.stop).isLE = true) :
    insert_excerpts_loop snaps [⟨p, b, r2⟩] []
        [⟨⟨p, b, r1⟩, false, r1.offset_is_empty⟩] none =
      [⟨⟨p, b, range_union r1 r2⟩, false,
        (range_union r1 r2).offset_is_empty⟩] := by
  obtain ⟨s1, t1⟩ := r1
  obtain ⟨s2, t2⟩ := r2
  dsimp only at hv1 ht1 ht2
  have hgx : (Anchor.cmp t2 s1).isGE = true := by
    rw [← anchor_cmp_swap, ordering_swap_isGE]
    exact ht1
  have hgy : (Anchor.cmp t1 s2).isGE = true := by
    rw [← anchor_cmp_swap, ordering_swap_isGE]
    exact ht2
  have h1 := anchor_cmp_swap s1 s2
  have h2 := anchor_cmp_swap t1 t2
  rcases hs : Anchor.cmp s1 s2 with _ | _ | _
  · rcases he : Anchor.cmp t1 t2 with _ | _ | _
    · rw [hs] at h1
      simp only [Ordering.swap] at h1
      rw [he] at h2
      simp only [Ordering.swap] at h2
      rcases hx : Anchor.cmp t2 s1 with _ | _ | _
      · rw [hx] at hgx
        exact absurd hgx (by decide)
      · have hxe : t2 = s1 := anchor_cmp_eq_eq.mp hx
        subst hxe
        rw [hv1] at he
        exact absurd he (by decide)
      · rcases hy : Anchor.cmp t1 s2 with _ | _ | _
        · rw [hy] at hgy
          exact absurd hgy (by decide)
        · have hye : t1 = s2 := anchor_cmp_eq_eq.mp hy
          subst hye
          simp [insert_excerpts_loop, seek_target_cmp, seek_consume, push_new_excerpt, lastOr, key_cmp_same_pid, List.getLast?, hs, he, hx, hy, hv1, anchor_cmp_self, range_union, anchor_min, anchor_max, Ordering.then, h1.symm, h2.symm]
        · simp [insert_excerpts_loop, seek_target_cmp, seek_consume, push_new_excerpt, lastOr, key_cmp_same_pid, List.getLast?, hs, he, hx, hy, hv1, anchor_cmp_self, range_union, anchor_min, anchor_max, Ordering.then, h1.symm, h2.symm]
    · rw [hs] at h1
      simp only [Ordering.swap] at h1
      have hteq : t1 = t2 := anchor_cmp_eq_eq.mp he
      subst hteq
      have hx := hv1
      rcases hy : Anchor.cmp t1 s2 with _ | _ | _
      · rw [hy] at hgy
        exact absurd hgy (by decide)
      · have hye : t1 = s2 := anchor_cmp_eq_eq.mp hy
        subst hye
        simp [insert_excerpts_loop, seek_target_cmp, seek_consume, push_new_excerpt, lastOr, key_cmp_same_pid, List.getLast?, hs, he, hx, hy, hv1, anchor_cmp_self, range_union, anchor_min, anchor_max, Ordering.then, h1.symm]
      · simp [insert_excerpts_loop, seek_target_cmp, seek_consume, push_new_excerpt, lastOr, key_cmp_same_pid, List.getLast?, hs, he, hx, hy, hv1, anchor_cmp_self, range_union, anchor_min, anchor_max, Ordering.then, h1.symm]
    · rw [hs] at h1
      simp only [Ordering.swap] at h1
      rw [he] at h2
      simp only [Ordering.swap] at h2
      rcases hx : Anchor.cmp t2 s1 with _ | _ | _
      · rw [hx] at hgx
        exact absurd hgx (by decide)
      · have hxe : t2 = s1 := anchor_cmp_eq_eq.mp hx
        subst hxe
        rcases hy : Anchor.cmp t1 s2 with _ | _ | _
        · rw [hy] at hgy
          exact absurd hgy (by decide)
        · have hye : t1 = s2 := anchor_cmp_eq_eq.mp hy
          subst hye
          simp [insert_excerpts_loop, seek_target_cmp, seek_consume, push_new_excerpt, lastOr, key_cmp_same_pid, List.getLast?, hs, he, hx, hy, hv1, anchor_cmp_self, range_union, anchor_min, anchor_max, Ordering.then, h1.symm, h2.symm]
        · simp [insert_excerpts_loop, seek_target_cmp, seek_consume, push_new_excerpt, lastOr, key_cmp_same_pid, List.getLast?, hs, he, hx, hy, hv1, anchor_cmp_self, range_union, anchor_min, anchor_max, Ordering.then, h1.symm, h2.symm]
      · rcases hy : Anchor.cmp t1 s2 with _ | _ | _
        · rw [hy] at hgy
          exact absurd hgy (by decide)
        · have hye : t1 = s2 := anchor_cmp_eq_eq.mp hy
          subst hye
          simp [insert_excerpts_loop, seek_target_cmp, seek_consume, push_new_excerpt, lastOr, key_cmp_same_pid, List.getLast?, hs, he, hx, hy, hv1, anchor_cmp_self, range_union, anchor_min, anchor_max, Ordering.then, h1.symm, h2.symm]
        · simp [insert_excerpts_loop, seek_target_cmp, seek_consume, push_new_excerpt, lastOr, key_cmp_same_pid, List.getLast?, hs, he, hx, hy, hv1, anchor_cmp_self, range_union, anchor_min, anchor_max, Ordering.then, h1.symm, h2.symm]
  · rcases he : Anchor.cmp t1 t2 with _ | _ | _
    · have hseq : s1 = s2 := anchor_cmp_eq_eq.mp hs
      subst hseq
      rw [he] at h2
      simp only [Ordering.swap] at h2
      rcases hx : Anchor.cmp t2 s1 with _ | _ | _
      · rw [hx] at hgx
        exact absurd hgx (by decide)
      · have hxe : t2 = s1 := anchor_cmp_eq_eq.mp hx
        subst hxe
        rw [hv1] at he
        exact absurd he (by decide)
      · have hy := hv1
        simp [insert_excerpts_loop, seek_target_cmp, seek_consume, push_new_excerpt, lastOr, key_cmp_same_pid, List.getLast?, hs, he, hx, hy, hv1, anchor_cmp_self, range_union, anchor_min, anchor_max, Ordering.then, h2.symm]
    · have hseq : s1 = s2 := anchor_cmp_eq_eq.mp hs
      subst hseq
      have hteq : t1 = t2 := anchor_cmp_eq_eq.mp he
      subst hteq
      have hx := hv1
      have hy := hv1
      simp [insert_excerpts_loop, seek_target_cmp, seek_consume, push_new_excerpt, lastOr, key_cmp_same_pid, List.getLast?, hs, he, hx, hy, hv1, anchor_cmp_self, range_union, anchor_min, anchor_max, Ordering.then]
    · have hseq : s1 = s2 := anchor_cmp_eq_eq.mp hs
      subst hseq
      rw [he] at h2
      simp only [Ordering.swap] at h2
      rcases hx : Anchor.cmp t2 s1 with _ | _ | _
      · rw [hx] at hgx
        exact absurd hgx (by decide)
      · have hxe : t2 = s1 := anchor_cmp_eq_eq.mp hx
        subst hxe
        have hy := he
        simp [insert_excerpts_loop, seek_target_cmp, seek_consume, push_new_excerpt, lastOr, key_cmp_same_pid, List.getLast?, hs, he, hx, hy, hv1, anchor_cmp_self, range_union, anchor_min, anchor_max, Ordering.then, h2.symm]
      · have hy := hv1
        simp [insert_excerpts_loop, seek_target_cmp, seek_consume, push_new_excerpt, lastOr, key_cmp_same_pid, List.getLast?, hs, he, hx, hy, hv1, anchor_cmp_self, range_union, anchor_min, anchor_max, Ordering.then, h2.symm]
  · rcases he : Anchor.cmp t1 t2 with _ | _ | _
    · rw [hs] at h1
      simp only [Ordering.swap] at h1
      rw [he] at h2
      simp only [Ordering.swap] at h2
      rcases hx : Anchor.cmp t2 s1 with _ | _ | _
      · rw [hx] at hgx
        exact absurd hgx (by decide)
      · have hxe : t2 = s1 := anchor_cmp_eq_eq.mp hx
        subst hxe
        rw [hv1] at he
        exact absurd he (by decide)
      · rcases hy : Anchor.cmp t1 s2 with _ | _ | _
        · rw [hy] at hgy
          exact absurd hgy (by decide)
        · have hye : t1 = s2 := anchor_cmp_eq_eq.mp hy
          subst hye
          rw [anchor_cmp_gt_iff_lt] at hs
          rw [hs] at hv1
          exact absurd hv1 (by decide)
        · simp [insert_excerpts_loop, seek_target_cmp, seek_consume, push_new_excerpt, lastOr, key_cmp_same_pid, List.getLast?, hs, he, hx, hy, hv1, anchor_cmp_self, range_union, anchor_min, anchor_max, Ordering.then, h1.symm, h2.symm]
    · rw [hs] at h1
      simp only [Ordering.swap] at h1
      have hteq : t1 = t2 := anchor_cmp_eq_eq.mp he
      subst hteq
      have hx := hv1
      rcases hy : Anchor.cmp t1 s2 with _ | _ | _
      · rw [hy] at hgy
        exact absurd hgy (by decide)
      · have hye : t1 = s2 := anchor_cmp_eq_eq.mp hy
        subst hye
        rw [anchor_cmp_gt_iff_lt] at hs
        rw [hs] at hv1
        exact absurd hv1 (by decide)
      · simp [insert_excerpts_loop, seek_target_cmp, seek_consume, push_new_excerpt, lastOr, key_cmp_same_pid, List.getLast?, hs, he, hx, hy, hv1, anchor_cmp_self, range_union, anchor_min, anchor_max, Ordering.then, h1.symm]
    · rw [hs] at h1
      simp only [Ordering.swap] at h1
      rw [he] at h2
      simp only [Ordering.swap] at h2
      rcases hx : Anchor.cmp t2 s1 with _ | _ | _
      · rw [hx] at hgx
        exact absurd hgx (by decide)
      · have hxe : t2 = s1 := anchor_cmp_eq_eq.mp hx
        subst hxe
        rcases hy : Anchor.cmp t1 s2 with _ | _ | _
        · rw [hy] at hgy
          exact absurd hgy (by decide)
        · have hye : t1 = s2 := anchor_cmp_eq_eq.mp hy
          subst hye
          rw [anchor_cmp_gt_iff_lt] at hs
          rw [hs] at hv1
          exact absurd hv1 (by decide)
        · simp [insert_excerpts_loop, seek_target_cmp, seek_consume, push_new_excerpt, lastOr, key_cmp_same_pid, List.getLast?, hs, he, hx, hy, hv1, anchor_cmp_self, range_union, anchor_min, anchor_max, Ordering.then, h1.symm, h2.symm]
      · rcases hy : Anchor.cmp t1 s2 with _ | _ | _
        · rw [hy] at hgy
          exact absurd hgy (by decide)
        · have hye : t1 = s2 := anchor_cmp_eq_eq.mp hy
          subst hye
          rw [anchor_cmp_gt_iff_lt] at hs
          rw [hs] at hv1
          exact absurd hv1 (by decide)
        · simp [insert_excerpts_loop, seek_target_cmp, seek_consume, push_new_excerpt, lastOr, key_cmp_same_pid, List.getLast?, hs, he, hx, hy, hv1, anchor_cmp_self, range_union, anchor_min, anchor_max, Ordering.then, h1.symm, h2.symm]

theorem register_one_existing (w : World) (b : BufferId) (r : ARange)
    (m : MultiBuffer) (hv : Anchor.cmp r.stop r.start = .gt)
    (hb : m.buffers.contains b = true) :
    register_new_excerpts w [(b, r)] m = (m, [⟨(w b).path, b, r⟩]) := by
  rw [register_new_excerpts]
  dsimp only
  rw [if_pos hv, if_pos hb]
  rfl

theorem dedup_single (k : ExcerptKey) :
    dedup_by_merge (sort_new_excerpts [k]) = [k] := rfl

/-- C2: inserting two valid ranges of one document that overlap or touch —
in either order within one batch, or across two `insert_excerpts` calls —
produces exactly one excerpt, whose range is the union of the two (minimum
start, maximum end in anchor order). -/
theorem c2_coalescing_union (w : World) (b : BufferId) (r1 r2 : ARange)
    (hv1 : valid_range r1) (hv2 : valid_range r2)
    (ht : touches_or_overlaps r1 r2) :
    (MultiBuffer.new.insert_excerpts w [(b, r1), (b, r2)]).snapshot.excerpts =
      [⟨⟨(w b).path, b, range_union r1 r2⟩, false,
        (range_union r1 r2).offset_is_empty⟩] ∧
    (MultiBuffer.new.insert_excerpts w [(b, r2), (b, r1)]).snapshot.excerpts =
      [⟨⟨(w b).path, b, range_union r1 r2⟩, false,
        (range_union r1 r2).offset_is_empty⟩] ∧
    ((MultiBuffer.new.insert_excerpts w [(b, r1)]).insert_excerpts w
        [(b, r2)]).snapshot.excerpts =
      [⟨⟨(w b).path, b, range_union r1 r2⟩, false,
        (range_union r1 r2).offset_is_empty⟩] := by
  obtain ⟨ht1, ht2⟩ := ht
  have hv1' : Anchor.cmp r1.stop r1.start = .gt := hv1
  have hv2' : Anchor.cmp r2.stop r2.start = .gt := hv2
  refine ⟨?_, ?_, ?_⟩
  · simp only [MultiBuffer.insert_excerpts, sync_new,
      register_two_same w b r1 r2 hv1' hv2']
    rw [dedup_two (w b).path b r1 r2 ht1 ht2, insert_loop_single]
  · simp only [MultiBuffer.insert_excerpts, sync_new,
      register_two_same w b r2 r1 hv2' hv1']
    rw [dedup_two (w b).path b r2 r1 ht2 ht1, range_union_comm r2 r1,
      insert_loop_single]
  · rw [insert_single_empty w b r1 hv1]
    simp only [MultiBuffer.insert_excerpts]
    rw [sync_fixed _ w (by
      intro q hq
      dsimp only at hq
      rw [List.mem_singleton] at hq
      subst hq
      rfl)]
    rw [register_one_existing w b r2 _ hv2' (by simp)]
    dsimp only
    rw [dedup_single]
    exact insert_loop_touching [(b, w b)] (w b).path b r1 r2 hv1' ht1 ht2

/-- Witness for C2 at concrete overlapping ranges `[0,5)` and `[3,9)` of the
round-trip document. -/
theorem c2_coalescing_union_witness :
    (valid_range ⟨anchor_before 0, anchor_after 5⟩ ∧
     valid_range ⟨anchor_before 3, anchor_after 9⟩ ∧
     touches_or_overlaps ⟨anchor_before 0, anchor_after 5⟩
       ⟨anchor_before 3, anchor_after 9⟩) ∧
    ((MultiBuffer.new.insert_excerpts rt_world
        [(rt_buffer, ⟨anchor_before 0, anchor_after 5⟩),
         (rt_buffer, ⟨anchor_before 3, anchor_after 9⟩)]).snapshot.excerpts =
      [⟨⟨(rt_world rt_buffer).path, rt_buffer,
          range_union ⟨anchor_before 0, anchor_after 5⟩
            ⟨anchor_before 3, anchor_after 9⟩⟩, false,
        (range_union ⟨anchor_before 0, anchor_after 5⟩
            ⟨anchor_before 3, anchor_after 9⟩).offset_is_empty⟩]) ∧
    ((MultiBuffer.new.insert_excerpts rt_world
        [(rt_buffer, ⟨anchor_before 3, anchor_after 9⟩),
         (rt_buffer, ⟨anchor_before 0, anchor_after 5⟩)]).snapshot.excerpts =
      [⟨⟨(rt_world rt_buffer).path, rt_buffer,
          range_union ⟨anchor_before 0, anchor_after 5⟩
            ⟨anchor_before 3, anchor_after 9⟩⟩, false,
        (range_union ⟨anchor_before 0, anchor_after 5⟩
            ⟨anchor_before 3, anchor_after 9⟩).offset_is_empty⟩]) ∧
    (((MultiBuffer.new.insert_excerpts rt_world
          [(rt_buffer, ⟨anchor_before 0, anchor_after 5⟩)]).insert_excerpts
            rt_world
          [(rt_buffer, ⟨anchor_before 3, anchor_after 9⟩)]).snapshot.excerpts =
      [⟨⟨(rt_world rt_buffer).path, rt_buffer,
          range_union ⟨anchor_before 0, anchor_after 5⟩
            ⟨anchor_before 3, anchor_after 9⟩⟩, false,
        (range_union ⟨anchor_before 0, anchor_after 5⟩
            ⟨anchor_before 3, anchor_after 9⟩).offset_is_empty⟩]) := by
  have h := c2_coalescing_union rt_world rt_buffer
    ⟨anchor_before 0, anchor_after 5⟩ ⟨anchor_before 3, anchor_after 9⟩
    (by decide) (by decide) (by decide)
  exact ⟨⟨by decide, by decide, by decide⟩, h.1, h.2.1, h.2.2⟩

theorem buffer_snapshot_ext {a b : BufferSnapshot} (h1 : a.path = b.path)
    (h2 : a.content = b.content)
    (h3 : a.non_text_state_update_count = b.non_text_state_update_count) :
    a = b := by
  cases a
  cases b
  simp_all

theorem sync_collect_post (w : World) :
    ∀ (mp : SnapMap), ∀ p ∈ (sync_collect w mp).2.2, w p.1 = p.2 := by
  intro mp
  induction mp with
  | nil => intro p hp; cases hp
  | cons kv rest ih =>
    obtain ⟨k, s⟩ := kv
    intro p hp
    rw [sync_collect] at hp
    rcases List.mem_cons.mp hp with rfl | hp'
    · dsimp only
      split
      · rfl
      case isFalse hch =>
        push_neg at hch
        obtain ⟨h1, h2, h3⟩ := hch
        have hc : s.content = (w k).content := by
          by_contra hne
          rw [edits_since, if_neg hne] at h3
          simp at h3
        exact buffer_snapshot_ext h2 hc.symm h1
    · exact ih p hp'

theorem range_union_self (r : ARange) : range_union r r = r := by
  simp [range_union, anchor_min, anchor_max, anchor_cmp_self]

theorem sync_idem (m : MultiBuffer) (w : World) :
    (m.sync w).sync w = m.sync w := by
  apply sync_fixed
  intro p hp
  have hmap : (m.sync w).snapshot.buffer_snapshots =
      (sync_collect w m.snapshot.buffer_snapshots).2.2 := rfl
  rw [hmap] at hp
  exact sync_collect_post w _ p hp

theorem insert_single_idem (w : World) (b : BufferId) (r : ARange)
    (hv : valid_range r) :
    (MultiBuffer.new.insert_excerpts w [(b, r)]).insert_excerpts w [(b, r)] =
      MultiBuffer.new.insert_excerpts w [(b, r)] := by
  have hv' : Anchor.cmp r.stop r.start = .gt := hv
  have hle : (Anchor.cmp r.start r.stop).isLE = true := by
    rw [anchor_cmp_gt_iff_lt.mp hv']
    rfl
  have hv2 : Anchor.cmp r.stop r.start = .gt := hv
  rw [insert_single_empty w b r hv]
  simp only [MultiBuffer.insert_excerpts]
  rw [sync_fixed _ w (by
    intro q hq
    dsimp only at hq
    rw [List.mem_singleton] at hq
    subst hq
    rfl)]
  rw [register_one_existing w b r _ hv2 (by simp)]
  dsimp only
  rw [dedup_single]
  rw [insert_loop_touching [(b, w b)] (w b).path b r r hv2 hle hle,
    range_union_self]

theorem range_union_valid (r1 r2 : ARange) (hv1 : valid_range r1)
    (hv2 : valid_range r2) : valid_range (range_union r1 r2) := by
  obtain ⟨s1, t1⟩ := r1
  obtain ⟨s2, t2⟩ := r2
  have hv1m : Anchor.cmp t1 s1 = .gt := hv1
  have hv2m : Anchor.cmp t2 s2 = .gt := hv2
  show Anchor.cmp (anchor_max t1 t2) (anchor_min s1 s2) = .gt
  rcases hs : Anchor.cmp s1 s2 with _ | _ | _ <;>
    rcases he : Anchor.cmp t1 t2 with _ | _ | _ <;>
    simp only [anchor_min, anchor_max, hs, he]
  · exact anchor_cmp_gt_iff_lt.mpr
      (anchor_cmp_lt_trans hs (anchor_cmp_gt_iff_lt.mp hv2m))
  · exact hv1m
  · exact hv1m
  · rw [← anchor_cmp_eq_eq.mp hs] at hv2m
    exact hv2m
  · exact hv1m
  · exact hv1m
  · exact hv2m
  · rw [← anchor_cmp_eq_eq.mp he] at hv2m
    exact hv2m
  · exact anchor_cmp_gt_iff_lt.mpr
      (anchor_cmp_lt_trans (anchor_cmp_gt_iff_lt.mp hv2m)
        (anchor_cmp_gt_iff_lt.mp he))

theorem register_two_existing (w : World) (b : BufferId) (r1 r2 : ARange)
    (m : MultiBuffer) (hv1 : Anchor.cmp r1.stop r1.start = .gt)
    (hv2 : Anchor.cmp r2.stop r2.start = .gt)
    (hb : m.buffers.contains b = true) :
    register_new_excerpts w [(b, r1), (b, r2)] m =
      (m, [⟨(w b).path, b, r1⟩, ⟨(w b).path, b, r2⟩]) := by
  rw [register_new_excerpts]
  dsimp only
  rw [if_pos hv1, if_pos hb]
  rw [register_new_excerpts]
  dsimp only
  rw [if_pos hv2, if_pos hb]
  rfl

theorem insert_pair_empty (w : World) (b : BufferId) (r1 r2 : ARange)
    (hv1 : Anchor.cmp r1.stop r1.start = .gt)
    (hv2 : Anchor.cmp r2.stop r2.start = .gt)
    (ht1 : (Anchor.cmp r1.start r2.stop).isLE = true)
    (ht2 : (Anchor.cmp r2.start r1.stop).isLE = true) :
    MultiBuffer.new.insert_excerpts w [(b, r1), (b, r2)] =
      ⟨⟨[⟨⟨(w b).path, b, range_union r1 r2⟩, false,
          (range_union r1 r2).offset_is_empty⟩], [(b, w b)]⟩, [b]⟩ := by
  simp only [MultiBuffer.insert_excerpts, sync_new,
    register_two_same w b r1 r2 hv1 hv2]
  rw [dedup_two (w b).path b r1 r2 ht1 ht2, insert_loop_single]

theorem insert_pair_idem (w : World) (b : BufferId) (r1 r2 : ARange)
    (hv1 : valid_range r1) (hv2 : valid_range r2)
    (ht : touches_or_overlaps r1 r2) :
    (MultiBuffer.new.insert_excerpts w
        [(b, r1), (b, r2)]).insert_excerpts w [(b, r1), (b, r2)] =
      MultiBuffer.new.insert_excerpts w [(b, r1), (b, r2)] := by
  obtain ⟨ht1, ht2⟩ := ht
  have hv1m : Anchor.cmp r1.stop r1.start = .gt := hv1
  have hv2m : Anchor.cmp r2.stop r2.start = .gt := hv2
  have hvU : Anchor.cmp (range_union r1 r2).stop (range_union r1 r2).start =
      .gt := range_union_valid r1 r2 hv1 hv2
  have hleU : (Anchor.cmp (range_union r1 r2).start
      (range_union r1 r2).stop).isLE = true := by
    rw [anchor_cmp_gt_iff_lt.mp hvU]
    rfl
  rw [insert_pair_empty w b r1 r2 hv1m hv2m ht1 ht2]
  simp only [MultiBuffer.insert_excerpts]
  rw [sync_fixed _ w (by
    intro q hq
    dsimp only at hq
    rw [List.mem_singleton] at hq
    subst hq
    rfl)]
  rw [register_two_existing w b r1 r2 _ hv1m hv2m (by simp)]
  dsimp only
  rw [dedup_two (w b).path b r1 r2 ht1 ht2]
  rw [insert_loop_touching [(b, w b)] (w b).path b
    (range_union r1 r2) (range_union r1 r2) hvU hleU hleU,
    range_union_self]

end MultiBuffer2
